import Mathlib

/-!
# AssetDNA — verification of the hierarchical asset mutation engine and BOM diffing

Shallow embedding of the core of the AssetDNA repository:

* `src/app/models/asset.py`            — `Asset`, `AssetType`, `generate_urn`
* `src/app/models/bom.py`              — `BOMHistory`, `BOMItem`, `calculate_changes`
* `src/app/api/endpoints/asset_operations.py` — `move_asset`, `copy_asset`, `deep_copy_asset`,
  and their shared recursive `is_descendant` check
* `src/app/api/endpoints/assets.py`    — `delete_asset`
* `src/app/api/endpoints/bom.py`       — `upload_bom`

Modelling conventions:
* The SQLAlchemy store is a `DB` value holding the rows of the three tables as lists
  (in insertion order, the order in which unordered queries return them).
* UUIDs are modelled as `Nat`; `uuid4()` which in the code supplies globally fresh
  identifiers is modelled by a monotone counter `fresh` threaded through the
  operations (each draw uses the current value and increments).  The random
  8-character URN disambiguator drawn from `uuid4()` is modelled as the decimal
  string of the same counter.
* `time.time()` and `datetime.utcnow()` are I/O and enter as explicit `ts`/`now`
  arguments.
* HTTP endpoints either commit a new store or raise an `HTTPException` before any
  commit (FastAPI rolls the transaction back); they are embedded as
  `DB → args → Except ApiError (DB × result)` where returning `.error` means the
  store is unchanged.
* `HTTPException(status_code=404)` is embedded as `ApiError.notFound` and
  `status_code=400` as `ApiError.invalidOperation`, matching the spec's taxonomy
  (`NotFound` ↔ 404, client-correctable `InvalidOperation` ↔ 400).
* The recursive Python `is_descendant` and the recursions of `deep_copy_asset` have
  no explicit bound (they are bounded by tree depth at runtime); the embedding
  gives them explicit fuel.  Operations call them with fuel `assets.length + 1`,
  which is proved sufficient in every acyclic store.
-/

namespace AssetDNA

/-- A row of the pre-seeded `asset_types` table (`src/app/models/asset.py`, class
`AssetType`): name, hierarchy level, and the can-have-BOM flag. -/
structure AssetTypeRec where
  id : Nat
  name : String
  level : Nat
  can_have_bom : Bool
deriving Repr, DecidableEq

/-- A row of the `assets` table (`src/app/models/asset.py`, class `Asset`). -/
structure Asset where
  id : Nat
  urn : String
  name : String
  description : String
  asset_type_id : Nat
  parent_id : Option Nat
  properties : List (String × String)
  tags : List String
  status : String
  lifecycle_stage : Option String
  external_id : Option String
  external_system : Option String
  version : Option String
  created_by : String
  updated_by : String
deriving Repr, DecidableEq

/-- A row of the `bom_items` table (`src/app/models/bom.py`, class `BOMItem`). -/
structure BOMItemRec where
  component_id : String
  component_name : String
  component_type : String
  version : String
  license : String
deriving Repr, DecidableEq

/-- A row of the `bom_history` table (`src/app/models/bom.py`, class `BOMHistory`),
with its owned `bom_items` inlined (they are loaded through the
`bom_items` relationship and deleted with their snapshot). -/
structure BOMHistoryRec where
  id : Nat
  asset_id : Nat
  bom_version : String
  bom_date : Nat
  bom_type : String
  bom_format : String
  total_components : Nat
  total_vulnerabilities : Nat
  total_licenses : Nat
  components_added : Nat
  components_removed : Nat
  components_updated : Nat
  source : String
  import_method : String
  is_valid : Nat
  bom_items : List BOMItemRec
deriving Repr, DecidableEq

/-- The persistent store: the rows of the three tables. -/
structure DB where
  types : List AssetTypeRec
  assets : List Asset
  boms : List BOMHistoryRec
deriving Repr, DecidableEq

/-- Errors surfaced by the endpoints: `notFound` is `HTTPException(404)`,
`invalidOperation` is `HTTPException(400)`. -/
inductive ApiError where
  | notFound (detail : String)
  | invalidOperation (detail : String)
deriving Repr, DecidableEq

/-- `select(Asset).where(Asset.id == i)` + `scalar_one_or_none()`. -/
def findAsset (db : DB) (i : Nat) : Option Asset :=
  db.assets.find? (fun a => a.id = i)

/-- `select(Asset).where(Asset.parent_id == p)` (children query). -/
def childrenOf (assets : List Asset) (p : Nat) : List Asset :=
  assets.filter (fun a => a.parent_id = some p)

/-- `select(Asset).where(Asset.parent_id == pid, Asset.name == nm)` returns a row. -/
def nameTaken (assets : List Asset) (pid : Option Nat) (nm : String) : Bool :=
  assets.any (fun a => a.parent_id = pid && a.name = nm)

/-- The recursive cycle check shared by `move_asset` and `copy_asset`
(`asset_operations.py` lines 265–277 and 323–335): `is_descendant(P, C)` is true
iff `P = C`, or recursively some child of `C` reaches `P`.  The Python recursion
is unbounded (it is bounded by tree depth only when the store is acyclic); the
embedding takes explicit fuel, consumed once per recursion level.  Callers pass
`assets.length + 1`, which is proved sufficient in acyclic stores. -/
def is_descendant (assets : List Asset) : Nat → Nat → Nat → Bool
  | 0, _, _ => false
  | fuel + 1, potential_parent_id, potential_child_id =>
    if potential_parent_id = potential_child_id then true
    else
      (childrenOf assets potential_child_id).any
        (fun c => is_descendant assets fuel potential_parent_id c.id)

/-- The suffix match `re.match(r'^(.*?)\s*\((\d+)\)$', base_name)` of
`move_asset` (`asset_operations.py` line 357): succeeds iff the name ends in
`"(<digits>)"` preceded by a (maximal) run of whitespace, with the leading group
free of newlines (`.` does not match `'\n'`).  Returns the raw first group and
the parsed integer. -/
def parenSuffix (name : String) : Option (String × Nat) :=
  match name.toList.reverse with
  | ')' :: rest =>
    let digitsRev := rest.takeWhile Char.isDigit
    let rest2 := rest.drop digitsRev.length
    if digitsRev.isEmpty then none
    else
      match rest2 with
      | '(' :: rest3 =>
        let wsRev := rest3.takeWhile Char.isWhitespace
        let groupRev := rest3.drop wsRev.length
        if groupRev.contains '\n' then none
        else
          let digits := digitsRev.reverse
          let n := digits.foldl (fun acc c => acc * 10 + (c.toNat - '0'.toNat)) 0
          some (String.mk groupRev.reverse, n)
      | _ => none
  | _ => none

/-- The probe loop `while counter <= 1000` of `move_asset`
(`asset_operations.py` lines 364–375): tries `"<base> (<counter>)"` for
increasing `counter` while at most `left` iterations remain (callers pass
`1001 - counter`, the number of iterations the Python loop performs before its
condition fails); returns `none` when the loop exhausts (the `while`/`else`
falls through to the timestamp fallback). -/
def findUniqueName (assets : List Asset) (pid : Option Nat) (base : String) :
    Nat → Nat → Option String
  | _, 0 => none
  | counter, left + 1 =>
    let new_name := base ++ " (" ++ toString counter ++ ")"
    if nameTaken assets pid new_name then
      findUniqueName assets pid base (counter + 1) left
    else
      some new_name

/-- The `base_name` derived by the rename block of `move_asset`
(`asset_operations.py` lines 353–361): the `strip()`ped first regex group on a
parenthesized-suffix match, the unchanged name otherwise. -/
def moveRenameBase (name : String) : String :=
  match parenSuffix name with
  | some (g, _) => g.trim
  | none => name

/-- The first probe index of the rename block of `move_asset`
(`asset_operations.py` lines 353–361): `n + 1` on a parenthesized-suffix match
`"<base> (<n>)"`, otherwise `1`. -/
def moveRenameStart (name : String) : Nat :=
  match parenSuffix name with
  | some (_, n) => n + 1
  | none => 1

/-- The rename-on-collision block of `move_asset` (`asset_operations.py` lines
343–380): when the parent actually changes and a sibling under the new parent
holds the asset's name, derive `(base_name, counter)` from the parenthesized
suffix match (start at `n + 1` on a match after `strip()`ping the group,
otherwise at `1`), probe up to `counter = 1000`, and fall back to the Unix
timestamp suffix when the probe exhausts. -/
def resolveMoveName (assets : List Asset) (asset : Asset) (new_parent_id : Option Nat)
    (ts : Nat) : String :=
  if new_parent_id ≠ asset.parent_id ∧ nameTaken assets new_parent_id asset.name then
    let bc : String × Nat :=
      match parenSuffix asset.name with
      | some (g, n) => (g.trim, n + 1)
      | none => (asset.name, 1)
    match findUniqueName assets new_parent_id bc.1 bc.2 (1001 - bc.2) with
    | some nm => nm
    | none => bc.1 ++ " (" ++ toString ts ++ ")"
  else
    asset.name

/-- The `if new_parent_id:` validation block shared (textually duplicated) by
`move_asset` and `copy_asset` (`asset_operations.py` lines 316–341 and
257–283): a non-null new parent must exist (400 otherwise) and must not be a
descendant-or-self of the asset (400 with the operation-specific
`cycleDetail`). -/
def parentGuard (db : DB) (asset_id : Nat) : Option Nat → String → Except ApiError Unit
  | none, _ => .ok ()
  | some pid, cycleDetail =>
    match findAsset db pid with
    | none => .error (.invalidOperation "Parent asset not found")
    | some _ =>
      if is_descendant db.assets (db.assets.length + 1) pid asset_id then
        .error (.invalidOperation cycleDetail)
      else .ok ()

/-- The commit of `move_asset` (`asset_operations.py` lines 343–385): rename on
sibling collision, set `parent_id`, commit.  Every other column of the moved
row, and every other row, is untouched. -/
def moveCommit (db : DB) (asset : Asset) (asset_id : Nat) (new_parent_id : Option Nat)
    (ts : Nat) : DB × Asset :=
  let nm := resolveMoveName db.assets asset new_parent_id ts
  let asset' := { asset with name := nm, parent_id := new_parent_id }
  ({ db with
      assets := db.assets.map (fun a => if a.id = asset_id then asset' else a) },
   asset')

/-- `move_asset` (`asset_operations.py` lines 298–391).  Looks the asset up
(404 when missing), validates the (non-null) new parent and the cycle check,
then commits via `moveCommit`.  `ts` is `int(time.time())` of the timestamp
fallback. -/
def move_asset (db : DB) (asset_id : Nat) (new_parent_id : Option Nat) (ts : Nat) :
    Except ApiError (DB × Asset) :=
  match findAsset db asset_id with
  | none => .error (.notFound "Asset not found")
  | some asset =>
    match parentGuard db asset_id new_parent_id "Cannot move an asset to its own descendant" with
    | .error e => .error e
    | .ok _ => .ok (moveCommit db asset asset_id new_parent_id ts)

/-- The `type_map` lookup of `Asset.generate_urn` (`src/app/models/asset.py`
lines 93–103): fixed type-name → short-code table, unknown names map to
`"asset"`.  (The Python dict is keyed by `str`-valued enum members, which
compare and hash equal to their value strings.) -/
def type_code_map (tname : String) : String :=
  if tname = "Domain / System of Systems" then "domain"
  else if tname = "System / Environment" then "sys"
  else if tname = "Subsystem" then "subsys"
  else if tname = "Component / Segment" then "comp"
  else if tname = "Configuration Item (CI)" then "ci"
  else if tname = "Hardware CI" then "hw"
  else if tname = "Software CI" then "sw"
  else if tname = "Firmware CI" then "fw"
  else "asset"

/-- Single-character replacement, the character-wise reading of
`str.replace(" ", "-")` for a one-character pattern. -/
def replaceChar (s : String) (a b : Char) : String :=
  String.mk (s.data.map (fun ch => if ch = a then b else ch))

/-- Character-wise lowercasing, the reading of `str.lower()` on the ASCII
names this schema stores. -/
def lowerStr (s : String) : String :=
  String.mk (s.data.map Char.toLower)

/-- `Asset.generate_urn` (`src/app/models/asset.py` lines 90–105):
`f"{settings.URN_PREFIX}:{type_code}:{safe_name}"` with the default prefix
`"urn:assetdna"` (`src/app/core/config.py` line 39), the type code looked up
from the asset's type name, and the name lowercased (`name.lower()`) with
spaces and slashes replaced by hyphens (`.replace(" ", "-").replace("/", "-")`,
single-character patterns, so a character-wise map). -/
def generate_urn (types : List AssetTypeRec) (asset_type_id : Nat) (name : String) : String :=
  let tname := (((types.find? (fun t => t.id = asset_type_id)).map
      (fun t => t.name)).getD "")
  "urn:assetdna:" ++ type_code_map tname ++ ":" ++
    replaceChar (replaceChar (lowerStr name) ' ' '-') '/' '-'

/-- The uniqueness probe of `deep_copy_asset` (`asset_operations.py` lines
145–167): if the candidate name is taken under the destination parent, probe
`"<candidate> (<k>)"` from `k = 2` upwards until a free name is found.  The
Python loop is `while True`; the embedding gives it fuel — callers pass
`assets.length + 1`, which always suffices because at most `assets.length`
candidate names can be taken and the candidates are pairwise distinct. -/
def resolveCopyName (assets : List Asset) (pid : Option Nat) (copied_name : String) :
    Option String :=
  if nameTaken assets pid copied_name then
    findUniqueName assets pid copied_name 2 (assets.length + 1)
  else some copied_name

/-- The record constructed by `deep_copy_asset` (`asset_operations.py` lines
169–184): all columns copied from the source (with independent copies of
`properties` and `tags`, which value semantics gives for free) except the fresh
`id`, the resolved `name`, the destination `parent_id`, the `urn` computed
below, and `external_id`, which is reset (`external_id=None`). -/
def copyRecord (asset : Asset) (new_parent_id : Option Nat) (newId : Nat)
    (nm urn : String) : Asset :=
  { id := newId
    urn := urn
    name := nm
    description := asset.description
    asset_type_id := asset.asset_type_id
    parent_id := new_parent_id
    properties := asset.properties
    tags := asset.tags
    status := asset.status
    lifecycle_stage := asset.lifecycle_stage
    external_id := none
    external_system := asset.external_system
    version := asset.version
    created_by := asset.created_by
    updated_by := asset.updated_by }

/-- The `for child in children` loop of `deep_copy_asset` (`asset_operations.py`
lines 218–224), abstracted over the recursive call `rec` (the copy of a single
child): copy each child in query order under the new parent `pid`, threading
the store and the fresh-id counter. -/
def deep_copy_childrenF
    (rec : DB → Asset → Option Nat → Nat → String → Option (DB × Nat × Nat)) :
    DB → List Asset → Nat → Nat → Option (DB × Nat)
  | db, [], _, fresh => some (db, fresh)
  | db, c :: cs', pid, fresh =>
    match rec db c (some pid) fresh "" with
    | none => none
    | some (db', _, fresh') => deep_copy_childrenF rec db' cs' pid fresh'

/-- `deep_copy_asset` (`asset_operations.py` lines 121–226): resolve the copy's
name (suffixing `name_suffix` exactly when the destination parent equals the
source's parent), generate its URN (appending a fresh disambiguator on a URN
collision), insert the new row, and recursively copy every child of the
original under the new row with an empty suffix.  BOM histories are
deliberately not copied.  Fresh `uuid4()` identifiers are modelled by the
counter `fresh`; the unbounded recursion is modelled with fuel (one unit per
tree level, `assets.length + 1` suffices in acyclic stores).  Returns the new
store, the new root's id, and the next fresh counter. -/
def deep_copy_asset (fuel : Nat) : DB → Asset → Option Nat → Nat → String →
    Option (DB × Nat × Nat) :=
  match fuel with
  | 0 => fun _ _ _ _ _ => none
  | fuel + 1 => fun db asset new_parent_id fresh name_suffix =>
    let copied_name0 :=
      if new_parent_id = asset.parent_id then asset.name ++ name_suffix else asset.name
    match resolveCopyName db.assets new_parent_id copied_name0 with
    | none => none
    | some cname =>
      let base_urn := generate_urn db.types asset.asset_type_id cname
      let urn :=
        if db.assets.any (fun a => a.urn = base_urn) then
          base_urn ++ "-" ++ toString fresh
        else base_urn
      let new_asset := copyRecord asset new_parent_id fresh cname urn
      let db1 : DB := { db with assets := db.assets ++ [new_asset] }
      match deep_copy_childrenF (deep_copy_asset fuel) db1 (childrenOf db1.assets asset.id)
          fresh (fresh + 1) with
      | none => none
      | some (db2, fresh2) => some (db2, fresh, fresh2)

/-- The children loop at a given fuel level: each child is copied by
`deep_copy_asset fuel`. -/
def deep_copy_children (fuel : Nat) (db : DB) (cs : List Asset) (pid : Nat)
    (fresh : Nat) : Option (DB × Nat) :=
  deep_copy_childrenF (deep_copy_asset fuel) db cs pid fresh

/-- `copy_asset` (`asset_operations.py` lines 229–295): look the source up
(404 on a missing asset), validate a non-null destination parent (400 when
missing) and the shared cycle check (400 when the destination is a
descendant-or-self of the source), then deep-copy with suffix `" (Copy)"` and
commit.  Returns the new store and the new root's id. -/
def copy_asset (db : DB) (asset_id : Nat) (new_parent_id : Option Nat) (fresh : Nat) :
    Except ApiError (DB × Nat) :=
  match findAsset db asset_id with
  | none => .error (.notFound "Asset not found")
  | some asset =>
    match parentGuard db asset_id new_parent_id "Cannot copy an asset to its own descendant" with
    | .error e => .error e
    | .ok _ =>
      match deep_copy_asset (db.assets.length + 1) db asset new_parent_id fresh " (Copy)" with
      | none => .error (.invalidOperation "recursion fuel exhausted (unreachable in acyclic stores)")
      | some (db', rootId, _) => .ok (db', rootId)

/-- `delete_asset` (`src/app/api/endpoints/assets.py` lines 282–311): 404 when
the asset is missing; without `cascade`, 400 when any direct child exists;
otherwise delete the row.  The `assets.parent_id` foreign key has
`ondelete="CASCADE"` and `bom_history.asset_id` likewise
(`src/app/models/asset.py` line 53, `src/app/models/bom.py` line 18), so the
database removes the entire descendant-or-self subtree and every BOM history
owned by a removed asset. -/
def delete_asset (db : DB) (asset_id : Nat) (cascade : Bool) : Except ApiError DB :=
  match findAsset db asset_id with
  | none => .error (.notFound "Asset not found")
  | some _ =>
    if !cascade && !(childrenOf db.assets asset_id).isEmpty then
      .error (.invalidOperation "Asset has children. Use cascade=true to delete all children.")
    else
      .ok { db with
              assets := db.assets.filter
                (fun a => !(is_descendant db.assets (db.assets.length + 1) a.id asset_id))
              boms := db.boms.filter
                (fun b => !(is_descendant db.assets (db.assets.length + 1) b.asset_id asset_id)) }

/-- `BOMHistory.calculate_changes` (`src/app/models/bom.py` lines 58–87):
with no previous snapshot, `(total_components, 0, 0)`; otherwise compare the
sets of `component_id`s — `added = |C − P|`, `removed = |P − C|`, and
`updated` counts the common ids whose first matching item's version differs
between the two snapshots. -/
def calculate_changes (current : BOMHistoryRec) (previous : Option BOMHistoryRec) :
    Nat × Nat × Nat :=
  match previous with
  | none => (current.total_components, 0, 0)
  | some prev =>
    let cset := (current.bom_items.map (fun i => i.component_id)).toFinset
    let pset := (prev.bom_items.map (fun i => i.component_id)).toFinset
    let added := (cset \ pset).card
    let removed := (pset \ cset).card
    let common := cset ∩ pset
    let updated := (common.filter (fun cid =>
        (current.bom_items.find? (fun i => i.component_id = cid)).map (fun i => i.version) ≠
        (prev.bom_items.find? (fun i => i.component_id = cid)).map (fun i => i.version))).card
    (added, removed, updated)

/-- A parsed JSON value, the result of `json.loads` in `upload_bom`
(`src/app/api/endpoints/bom.py` line 52). -/
inductive JValue where
  | null
  | bool (b : Bool)
  | num (n : Int)
  | str (s : String)
  | arr (xs : List JValue)
  | obj (fields : List (String × JValue))
deriving Repr

mutual

/-- Python `==` on parsed JSON values, used by `components.index(comp)`
(`bom.py` line 119).  (Python compares dicts unordered and equates `True`
with `1`; the embedding compares object fields in order and keeps booleans and
numbers apart — no claim exercises those corners.) -/
def JValue.beq : JValue → JValue → Bool
  | .null, .null => true
  | .bool a, .bool b => a = b
  | .num a, .num b => a = b
  | .str a, .str b => a = b
  | .arr xs, .arr ys => JValue.beqList xs ys
  | .obj xs, .obj ys => JValue.beqFields xs ys
  | _, _ => false

/-- Elementwise `JValue.beq` on arrays. -/
def JValue.beqList : List JValue → List JValue → Bool
  | [], [] => true
  | x :: xs, y :: ys => x.beq y && JValue.beqList xs ys
  | _, _ => false

/-- Fieldwise `JValue.beq` on objects. -/
def JValue.beqFields : List (String × JValue) → List (String × JValue) → Bool
  | [], [] => true
  | (k, v) :: xs, (k', v') :: ys => k = k' && v.beq v' && JValue.beqFields xs ys
  | _, _ => false

end

/-- A parsed JSON object (a Python dict: keys unique, insertion order). -/
def JDoc := List (String × JValue)

/-- `d.get(k)` / `k in d` on a parsed JSON object. -/
def jget (fields : JDoc) (k : String) : Option JValue :=
  (List.find? (fun kv => kv.1 = k) fields).map (fun kv => kv.2)

/-- `d.get(k, default)` where a string is expected.  A present non-string value
(which Python would pass through into the ORM layer) is outside the model and
treated as the default; no claim exercises one. -/
def jgetStrD (fields : JDoc) (k : String) (d : String) : String :=
  match jget fields k with
  | some (.str s) => s
  | _ => d

/-- `d.get(k, [])` where a list is expected (a present non-list value would
make the Python `for` loop over it raise; outside the model). -/
def jgetArrD (fields : JDoc) (k : String) : List JValue :=
  match jget fields k with
  | some (.arr xs) => xs
  | _ => []

/-- The fields of a component entry; Python would raise `AttributeError` on a
non-dict entry (outside the model, no claim exercises one). -/
def jfields : JValue → JDoc
  | .obj fs => fs
  | _ => []

/-- `components.index(comp)` (`bom.py` line 119): index of the first entry
equal to `comp`. -/
def jindexOf (xs : List JValue) (v : JValue) : Nat :=
  xs.findIdx (fun x => x.beq v)

/-- The per-component extraction of `upload_bom` (`bom.py` lines 101–135):
format-specific field paths with the documented fallbacks, producing one
`bom_items` row.  `components` is the full extracted list (needed for the
custom format's positional `comp_{index}` placeholder). -/
def extractItem (bom_format : String) (components : List JValue) (comp : JValue) :
    BOMItemRec :=
  let c := jfields comp
  if bom_format = "CycloneDX" then
    { component_id :=
        match jget c "bom-ref" with
        | some (.str s) => s
        | _ => jgetStrD c "name" "unknown"
      component_name := jgetStrD c "name" "Unknown Component"
      component_type := jgetStrD c "type" "library"
      version := jgetStrD c "version" ""
      license :=
        match jget c "licenses" with
        | some (.arr (l0 :: _)) =>
          (match jget (jfields l0) "license" with
           | some (.obj lic) => jgetStrD lic "id" ""
           | _ => "")
        | _ => "" }
  else if bom_format = "SPDX" then
    { component_id :=
        match jget c "SPDXID" with
        | some (.str s) => s
        | _ => jgetStrD c "name" "unknown"
      component_name := jgetStrD c "name" "Unknown Component"
      component_type := "package"
      version := jgetStrD c "versionInfo" ""
      license := jgetStrD c "licenseConcluded" "" }
  else
    { component_id :=
        match jget c "id" with
        | some (.str s) => s
        | _ =>
          match jget c "name" with
          | some (.str s) => s
          | _ => "comp_" ++ toString (jindexOf components comp)
      component_name :=
        match jget c "name" with
        | some (.str s) => s
        | _ => jgetStrD c "title" "Unknown Component"
      component_type := jgetStrD c "type" "component"
      version :=
        match jget c "version" with
        | some (.str s) => s
        | _ => jgetStrD c "ver" ""
      license := jgetStrD c "license" "" }

/-- `upload_bom` (`src/app/api/endpoints/bom.py` lines 21–151).  404 when the
asset is missing; 400 when it has any child (only leaf assets may hold a BOM).
The embedding receives the already-parsed JSON document: the non-`.json`
filename and JSON-decode failures raise 400 before any state change and are
upstream of the model.  Format sniffing: both `bomFormat` and `specVersion`
present ⇒ CycloneDX; `spdxVersion` present ⇒ SPDX; otherwise custom, reading the
component list from the first present of `components`, `packages`, `items`
(or the empty list when none is present — the upload still succeeds).  The new
snapshot row keeps the column defaults `components_added = components_removed =
components_updated = 0` and `total_vulnerabilities = 0`: `upload_bom` never
calls `calculate_changes`.  (The raw `bom_data` column and the audit
timestamps are not modelled; `now` is `datetime.utcnow()`, `freshBomId` the
fresh row id.) -/
def upload_bom (db : DB) (asset_id : Nat) (bom_data : JDoc)
    (version bom_type source : String) (now : Nat) (freshBomId : Nat) :
    Except ApiError (DB × BOMHistoryRec) :=
  match findAsset db asset_id with
  | none => .error (.notFound "Asset not found")
  | some _ =>
    if childrenOf db.assets asset_id ≠ [] then
      .error (.invalidOperation
        "BOMs can only be uploaded for leaf-level assets. This asset has child assets.")
    else
      let bom_format :=
        if (jget bom_data "bomFormat").isSome ∧ (jget bom_data "specVersion").isSome then
          "CycloneDX"
        else if (jget bom_data "spdxVersion").isSome then "SPDX"
        else "custom"
      let components :=
        if bom_format = "CycloneDX" then jgetArrD bom_data "components"
        else if bom_format = "SPDX" then jgetArrD bom_data "packages"
        else if (jget bom_data "components").isSome then jgetArrD bom_data "components"
        else if (jget bom_data "packages").isSome then jgetArrD bom_data "packages"
        else if (jget bom_data "items").isSome then jgetArrD bom_data "items"
        else []
      let bom_items := components.map (extractItem bom_format components)
      let total_licenses :=
        ((bom_items.filter (fun i => i.license ≠ "")).map (fun i => i.license)).dedup.length
      let snap : BOMHistoryRec :=
        { id := freshBomId
          asset_id := asset_id
          bom_version := version
          bom_date := now
          bom_type := bom_type
          bom_format := bom_format
          total_components := components.length
          total_vulnerabilities := 0
          total_licenses := total_licenses
          components_added := 0
          components_removed := 0
          components_updated := 0
          source := source
          import_method := "file_upload"
          is_valid := 1
          bom_items := bom_items }
      .ok ({ db with boms := db.boms ++ [snap] }, snap)

/-! ## Derived relations, well-formedness, and spec-side definitions -/

/-- The parent pointer of asset `x` in the store (the `parent_id` column of the
row with id `x`). -/
def parentF (assets : List Asset) (x : Nat) : Option Nat :=
  (assets.find? (fun a => a.id = x)).bind (fun a => a.parent_id)

/-- One step of the ancestor walk: `y` is the parent of `x`. -/
def ancStep (assets : List Asset) (x y : Nat) : Prop :=
  parentF assets x = some y

/-- The parent graph is acyclic: no asset appears in its own ancestor chain
(spec §3: "No asset is its own ancestor"). -/
def Acyclic (assets : List Asset) : Prop :=
  ∀ x, ¬ Relation.TransGen (ancStep assets) x x

/-- `k` is a descendant-or-self of `root`: the ancestor chain starting at `k`
reaches `root` (the relation the recursive `is_descendant` check decides). -/
def DescSelf (assets : List Asset) (root k : Nat) : Prop :=
  Relation.ReflTransGen (ancStep assets) k root

/-- One child step through an explicit row: `y` is a child of `x` witnessed by a
row of the store. -/
def memStep (l : List Asset) (x y : Nat) : Prop :=
  ∃ a ∈ l, a.id = y ∧ a.parent_id = some x

/-- `k` lies in the subtree rooted at `r`: reachable from `r` through child
steps witnessed by rows (used to reason about the recursive deep copy). -/
def SubtreeMem (l : List Asset) (r k : Nat) : Prop :=
  Relation.ReflTransGen (memStep l) r k

/-- Row ids are pairwise distinct (the primary-key constraint on `assets.id`). -/
def NodupIds (assets : List Asset) : Prop :=
  (assets.map (fun a => a.id)).Nodup

/-- Every non-null parent pointer resolves to an existing row (the
`assets.parent_id` foreign-key constraint), as a decidable check. -/
def wellParentedB (assets : List Asset) : Bool :=
  assets.all (fun a =>
    match a.parent_id with
    | none => true
    | some p => assets.any (fun y => y.id = p))

/-- Sibling names are unique: no two distinct rows share `(name, parent_id)`
(the `uq_asset_name_parent` constraint). -/
def NamesUnique (assets : List Asset) : Prop :=
  assets.Pairwise (fun a b => ¬ (a.name = b.name ∧ a.parent_id = b.parent_id))

instance (assets : List Asset) : Decidable (NodupIds assets) := by
  unfold NodupIds
  infer_instance

instance (assets : List Asset) : Decidable (NamesUnique assets) := by
  unfold NamesUnique
  infer_instance

/-- A decidable certificate for acyclicity: a rank function that strictly
drops from every asset to its parent. -/
def rankedB (assets : List Asset) (f : Nat → Nat) : Bool :=
  assets.all (fun a =>
    match a.parent_id with
    | none => true
    | some p => decide (f p < f a.id))

/-- The `n`-fold iterate of the parent pointer (`none` once the chain leaves
the store or reaches a root before `n` steps). -/
def iterParent (assets : List Asset) : Nat → Nat → Option Nat
  | 0, x => some x
  | n + 1, x =>
    match parentF assets x with
    | some y => iterParent assets n y
    | none => none

/-- A sequence of Move requests applied through the API.  A failed request
raises `HTTPException` before the commit, so it leaves the store unchanged. -/
def applyMoves (db : DB) : List (Nat × Option Nat × Nat) → DB
  | [] => db
  | (aid, npid, ts) :: rest =>
    match move_asset db aid npid ts with
    | .ok (db', _) => applyMoves db' rest
    | .error _ => applyMoves db rest

/-- The bare shape of a subtree (children in query order, all data erased) —
the observation under which two subtrees are isomorphic. -/
inductive STree where
  | node : List STree → STree
deriving Repr

/-- Number of nodes of a shape tree. -/
def STree.size : STree → Nat
  | .node cs => 1 + (cs.attach.map (fun c => STree.size c.1)).sum
decreasing_by
  simp only [STree.node.sizeOf_spec]
  have := List.sizeOf_lt_of_mem c.2
  omega

/-- The shape of the subtree rooted at `i`, explored to depth `fuel`. -/
def shapeOf (assets : List Asset) : Nat → Nat → STree
  | 0, _ => .node []
  | fuel + 1, i => .node ((childrenOf assets i).map (fun c => shapeOf assets fuel c.id))

/-- Modelled from the spec's wording of Diff (§4.4): `C` and `P` are the sets
of component ids of the two snapshots, `added = |C − P|`, `removed = |P − C|`,
and `updated` counts the ids in `C ∩ P` whose recorded version strings differ —
read, under the data model's "component identifier unique within the snapshot",
as: some pair of items recorded under that id disagrees on the version
string. -/
def specDiff (current previous : BOMHistoryRec) : Nat × Nat × Nat :=
  let C := (current.bom_items.map (fun i => i.component_id)).toFinset
  let P := (previous.bom_items.map (fun i => i.component_id)).toFinset
  ((C \ P).card, (P \ C).card,
    ((C ∩ P).filter (fun cid =>
      ∃ i ∈ current.bom_items, ∃ j ∈ previous.bom_items,
        i.component_id = cid ∧ j.component_id = cid ∧ i.version ≠ j.version)).card)

/-! ## Concrete stores and observers for witnesses and counterexamples -/

instance {e a : Type} [DecidableEq e] [DecidableEq a] : DecidableEq (Except e a) := fun x y =>
  match x, y with
  | .ok v, .ok w =>
    if h : v = w then .isTrue (by rw [h])
    else .isFalse (by intro hc; injection hc; exact h (by assumption))
  | .error v, .error w =>
    if h : v = w then .isTrue (by rw [h])
    else .isFalse (by intro hc; injection hc; exact h (by assumption))
  | .ok _, .error _ => .isFalse (by intro hc; cases hc)
  | .error _, .ok _ => .isFalse (by intro hc; cases hc)

/-- A concrete asset row (used by the witness stores below). -/
def mkAsset (i : Nat) (nm : String) (p : Option Nat) : Asset :=
  { id := i, urn := "urn:assetdna:subsys:" ++ toString i, name := nm, description := "",
    asset_type_id := 1, parent_id := p, properties := [], tags := [],
    status := "active", lifecycle_stage := none, external_id := some ("EXT-" ++ toString i),
    external_system := some "OTOBO", version := none, created_by := "tester",
    updated_by := "tester" }

/-- A small concrete store: root `"A"` (id 1) with child `"B"` (id 2), plus a
second root also named `"B"` (id 3) — the spec §8 Move scenario. -/
def wdb : DB :=
  { types := [{ id := 1, name := "Subsystem", level := 3, can_have_bom := true }],
    assets := [mkAsset 1 "A" none, mkAsset 2 "B" (some 1), mkAsset 3 "B" none],
    boms := [] }

/-- A one-asset store whose only asset (id 1) is a leaf. -/
def wleaf : DB :=
  { types := [{ id := 1, name := "Software CI", level := 7, can_have_bom := true }],
    assets := [mkAsset 1 "A" none],
    boms := [] }

/-- A custom-format document with exactly one component. -/
def oneComponentDoc : JDoc :=
  [("components", .arr [.obj [("name", .str "libx"), ("version", .str "1.0")]])]

/-- A concrete BOM item. -/
def mkItem (cid ver : String) : BOMItemRec :=
  { component_id := cid, component_name := cid, component_type := "library",
    version := ver, license := "" }

/-- A concrete previous snapshot: components `X@1.0` and `Y@1.0`. -/
def wsnapPrev : BOMHistoryRec :=
  { id := 10, asset_id := 1, bom_version := "1", bom_date := 0, bom_type := "SBOM",
    bom_format := "custom", total_components := 2, total_vulnerabilities := 0,
    total_licenses := 0, components_added := 0, components_removed := 0,
    components_updated := 0, source := "seed", import_method := "file_upload",
    is_valid := 1, bom_items := [mkItem "X" "1.0", mkItem "Y" "1.0"] }

/-- A concrete current snapshot: components `X@1.1` and `Z@1.0`. -/
def wsnapCur : BOMHistoryRec :=
  { wsnapPrev with
      id := 11
      bom_version := "2"
      bom_items := [mkItem "X" "1.1", mkItem "Z" "1.0"] }

/-- The name of the moved asset after a Move request, `none` on failure. -/
def movedNameOf (db : DB) (aid : Nat) (npid : Option Nat) (ts : Nat) : Option String :=
  match move_asset db aid npid ts with
  | .ok (_, a) => some a.name
  | .error _ => none

/-- The committed `(store, asset)` of a successful Move request (a dummy pair
on failure; used only to observe successful moves in witnesses). -/
def moveResult (db : DB) (aid : Nat) (npid : Option Nat) (ts : Nat) : DB × Asset :=
  match move_asset db aid npid ts with
  | .ok pr => pr
  | .error _ => (db, mkAsset 0 "" none)

/-- The error raised by a Move request, `none` on success. -/
def moveErrorOf (db : DB) (aid : Nat) (npid : Option Nat) (ts : Nat) : Option ApiError :=
  match move_asset db aid npid ts with
  | .ok _ => none
  | .error e => some e

/-- Observation of an upload: the stored snapshot's
`(total_components, components_added, components_removed, components_updated)`
and the number of snapshots in the store afterwards; `none` on failure. -/
def uploadOutcome (db : DB) (aid : Nat) (doc : JDoc) (version bom_type source : String)
    (now freshBomId : Nat) : Option (Nat × Nat × Nat × Nat × Nat) :=
  match upload_bom db aid doc version bom_type source now freshBomId with
  | .ok (db', s) =>
    some (s.total_components, s.components_added, s.components_removed,
          s.components_updated, db'.boms.length)
  | .error _ => none

/-- The committed `(store, new root id)` of a successful Copy request (a dummy
pair on failure; used only to observe successful copies in witnesses). -/
def copyOutcome (db : DB) (aid : Nat) (npid : Option Nat) (fresh : Nat) : DB × Nat :=
  match copy_asset db aid npid fresh with
  | .ok pr => pr
  | .error _ => (db, 0)

end AssetDNA

namespace AssetDNA

/-! ## Basic facts about the parent relation and the descendant check -/

theorem parentF_eq_some {assets : List Asset} {x y : Nat} (h : parentF assets x = some y) :
    ∃ a ∈ assets, a.id = x ∧ a.parent_id = some y := by
  unfold parentF at h
  cases hf : assets.find? (fun a => a.id = x) with
  | none => rw [hf] at h; simp at h
  | some a =>
    rw [hf] at h
    refine ⟨a, List.mem_of_find?_eq_some hf, ?_, ?_⟩
    · simpa using List.find?_some hf
    · simpa using h

theorem parentF_of_mem {assets : List Asset} (hnd : NodupIds assets) {a : Asset}
    (ha : a ∈ assets) : parentF assets a.id = a.parent_id := by
  unfold parentF
  cases hf : assets.find? (fun x => x.id = a.id) with
  | none =>
    have := List.find?_eq_none.mp hf a ha
    simp at this
  | some b =>
    have hb : b ∈ assets := List.mem_of_find?_eq_some hf
    have hid : b.id = a.id := by simpa using List.find?_some hf
    have hba : b = a := List.inj_on_of_nodup_map hnd hb ha hid
    subst hba
    simp

theorem ancStep_of_mem {assets : List Asset} (hnd : NodupIds assets) {a : Asset} {p : Nat}
    (ha : a ∈ assets) (hp : a.parent_id = some p) : ancStep assets a.id p := by
  unfold ancStep
  rw [parentF_of_mem hnd ha]
  exact hp

theorem child_of_ancStep {assets : List Asset} {c t : Nat} (h : ancStep assets c t) :
    ∃ a ∈ childrenOf assets t, a.id = c := by
  obtain ⟨a, ha, hid, hpid⟩ := parentF_eq_some h
  exact ⟨a, List.mem_filter.mpr ⟨ha, by simp [hpid]⟩, hid⟩

theorem iterParent_add (assets : List Asset) (m n x : Nat) :
    iterParent assets (m + n) x =
      (iterParent assets m x).bind (fun y => iterParent assets n y) := by
  induction m generalizing x with
  | zero => simp [iterParent, Nat.zero_add]
  | succ m ih =>
    rw [Nat.succ_add]
    show (match parentF assets x with
          | some y => iterParent assets (m + n) y
          | none => none) =
        ((match parentF assets x with
          | some y => iterParent assets m y
          | none => none) : Option Nat).bind (fun y => iterParent assets n y)
    cases hp : parentF assets x with
    | none => simp
    | some y => simpa using ih y

theorem iterParent_one (assets : List Asset) (x : Nat) :
    iterParent assets 1 x = parentF assets x := by
  show (match parentF assets x with
        | some y => iterParent assets 0 y
        | none => none) = parentF assets x
  cases hp : parentF assets x with
  | none => rfl
  | some y => rfl

theorem descSelf_iff_iter {assets : List Asset} {p t : Nat} :
    DescSelf assets t p ↔ ∃ n, iterParent assets n p = some t := by
  constructor
  · intro h
    induction h using Relation.ReflTransGen.head_induction_on with
    | refl => exact ⟨0, rfl⟩
    | head step _ ih =>
      obtain ⟨n, hn⟩ := ih
      refine ⟨n + 1, ?_⟩
      show (match parentF assets _ with
            | some y => iterParent assets n y
            | none => none) = some t
      rw [step]
      exact hn
  · rintro ⟨n, hn⟩
    induction n generalizing p with
    | zero =>
      have hpt : p = t := Option.some.inj hn
      subst hpt
      exact Relation.ReflTransGen.refl
    | succ n ih =>
      revert hn
      show (match parentF assets p with
            | some y => iterParent assets n y
            | none => none) = some t → _
      cases hp : parentF assets p with
      | none => intro hn; simp at hn
      | some y => intro hn; exact Relation.ReflTransGen.head hp (ih hn)

theorem transGen_of_iter {assets : List Asset} {k x y : Nat} (hk : 0 < k)
    (h : iterParent assets k x = some y) : Relation.TransGen (ancStep assets) x y := by
  induction k generalizing x with
  | zero => omega
  | succ k ih =>
    revert h
    show (match parentF assets x with
          | some z => iterParent assets k z
          | none => none) = some y → _
    cases hp : parentF assets x with
    | none => intro h; simp at h
    | some z =>
      intro h
      rcases Nat.eq_zero_or_pos k with h0 | hpos
      · subst h0
        have hzy : z = y := Option.some.inj h
        subst hzy
        exact Relation.TransGen.single hp
      · exact Relation.TransGen.head hp (ih hpos h)

theorem iter_some_of_le {assets : List Asset} {p t n : Nat}
    (h : iterParent assets n p = some t) {k : Nat} (hk : k ≤ n) :
    ∃ c, iterParent assets k p = some c := by
  have hsplit : iterParent assets n p =
      (iterParent assets k p).bind (fun y => iterParent assets (n - k) y) := by
    rw [← iterParent_add]
    congr 1
    omega
  cases hc : iterParent assets k p with
  | none => rw [hc] at hsplit; rw [hsplit] at h; simp at h
  | some c => exact ⟨c, rfl⟩

theorem iter_inj_of_acyclic {assets : List Asset} (hacy : Acyclic assets) {p i j ci cj : Nat}
    (hij : i < j) (hi : iterParent assets i p = some ci)
    (hj : iterParent assets j p = some cj) : ci ≠ cj := by
  intro he
  subst he
  have hsplit : iterParent assets j p =
      (iterParent assets i p).bind (fun y => iterParent assets (j - i) y) := by
    rw [← iterParent_add]
    congr 1
    omega
  rw [hi] at hsplit
  simp only [Option.some_bind] at hsplit
  rw [hj] at hsplit
  exact hacy ci (transGen_of_iter (by omega) hsplit.symm)

theorem iter_mem_ids {assets : List Asset} {p t n : Nat}
    (h : iterParent assets n p = some t) {k : Nat} (hk : k < n) {c : Nat}
    (hc : iterParent assets k p = some c) : c ∈ assets.map (fun a => a.id) := by
  have hsplit : iterParent assets n p =
      (iterParent assets k p).bind (fun y => iterParent assets (n - k) y) := by
    rw [← iterParent_add]
    congr 1
    omega
  rw [hc] at hsplit
  simp only [Option.some_bind] at hsplit
  rw [h] at hsplit
  have h1 : ∃ d, iterParent assets 1 c = some d := iter_some_of_le hsplit.symm (by omega)
  obtain ⟨d, hd⟩ := h1
  rw [iterParent_one] at hd
  obtain ⟨a, ha, hid, _⟩ := parentF_eq_some hd
  exact List.mem_map.mpr ⟨a, ha, hid⟩

theorem iter_bound_of_acyclic {assets : List Asset} (hacy : Acyclic assets) {p t n : Nat}
    (h : iterParent assets n p = some t) (ht : t ∈ assets.map (fun a => a.id)) :
    n < assets.length + 1 := by
  have hsome : ∀ k ∈ Finset.range (n + 1), ∃ c, iterParent assets k p = some c := by
    intro k hk
    exact iter_some_of_le h (by simpa using Nat.lt_succ_iff.mp (Finset.mem_range.mp hk))
  have hcard : (Finset.range (n + 1)).card ≤ (assets.map (fun a => a.id)).toFinset.card := by
    apply Finset.card_le_card_of_injOn (fun k => (iterParent assets k p).getD 0)
    · intro k hk
      obtain ⟨c, hc⟩ := hsome k hk
      rw [hc]
      simp only [Option.getD_some]
      rcases Nat.lt_or_ge k n with hlt | hge
      · exact List.mem_toFinset.mpr (iter_mem_ids h hlt hc)
      · have hkn : k = n := by
          have := Finset.mem_range.mp hk
          omega
        subst hkn
        rw [h] at hc
        cases hc
        exact List.mem_toFinset.mpr ht
    · intro i hi j hj hne
      by_contra hij
      obtain ⟨ci, hci⟩ := hsome i (by simpa using hi)
      obtain ⟨cj, hcj⟩ := hsome j (by simpa using hj)
      have hne2 : (iterParent assets i p).getD 0 = (iterParent assets j p).getD 0 := hne
      rw [hci, hcj] at hne2
      simp only [Option.getD_some] at hne2
      rcases Nat.lt_trichotomy i j with hlt | heq | hgt
      · exact iter_inj_of_acyclic hacy hlt hci hcj hne2
      · exact hij heq
      · exact iter_inj_of_acyclic hacy hgt hcj hci hne2.symm
  have : n + 1 ≤ assets.length := by
    calc n + 1 = (Finset.range (n + 1)).card := (Finset.card_range (n + 1)).symm
    _ ≤ (assets.map (fun a => a.id)).toFinset.card := hcard
    _ ≤ (assets.map (fun a => a.id)).length := List.toFinset_card_le _
    _ = assets.length := List.length_map _ _
  omega

theorem is_descendant_of_iter {assets : List Asset} :
    ∀ (n : Nat) {fuel p t : Nat}, iterParent assets n p = some t → n < fuel →
      is_descendant assets fuel p t = true := by
  intro n
  induction n with
  | zero =>
    intro fuel p t h hf
    have hpt : p = t := Option.some.inj h
    subst hpt
    cases fuel with
    | zero => omega
    | succ f => simp [is_descendant]
  | succ n ih =>
    intro fuel p t h hf
    have hr : (iterParent assets n p).bind (fun y => iterParent assets 1 y) = some t := by
      rw [← iterParent_add]
      exact h
    cases hc : iterParent assets n p with
    | none => rw [hc] at hr; simp at hr
    | some c =>
      rw [hc] at hr
      simp only [Option.some_bind] at hr
      rw [iterParent_one] at hr
      obtain ⟨a, hmem, hid⟩ := child_of_ancStep hr
      cases fuel with
      | zero => omega
      | succ f =>
        by_cases hpt : p = t
        · simp [is_descendant, hpt]
        · simp only [is_descendant, if_neg hpt]
          apply List.any_eq_true.mpr
          exact ⟨a, hmem, by rw [hid]; exact ih hc (by omega)⟩

theorem descSelf_of_is_descendant {assets : List Asset} (hnd : NodupIds assets) :
    ∀ {fuel p t : Nat}, is_descendant assets fuel p t = true → DescSelf assets t p := by
  intro fuel
  induction fuel with
  | zero => intro p t h; simp [is_descendant] at h
  | succ f ih =>
    intro p t h
    by_cases hpt : p = t
    · subst hpt; exact Relation.ReflTransGen.refl
    · simp only [is_descendant, if_neg hpt] at h
      obtain ⟨a, hmem, hrec⟩ := List.any_eq_true.mp h
      have hmem' := List.mem_filter.mp hmem
      have hpid : a.parent_id = some t := by simpa using hmem'.2
      have hstep : ancStep assets a.id t := ancStep_of_mem hnd hmem'.1 hpid
      exact (ih hrec).tail hstep

theorem is_descendant_complete {assets : List Asset} (hacy : Acyclic assets) {p t : Nat}
    (h : DescSelf assets t p) (ht : t ∈ assets.map (fun a => a.id)) :
    is_descendant assets (assets.length + 1) p t = true := by
  obtain ⟨n, hn⟩ := descSelf_iff_iter.mp h
  exact is_descendant_of_iter n hn (iter_bound_of_acyclic hacy hn ht)

theorem acyclic_of_ranked (assets : List Asset) (f : Nat → Nat)
    (h : rankedB assets f = true) : Acyclic assets := by
  have hstep : ∀ x y, ancStep assets x y → f y < f x := by
    intro x y hxy
    obtain ⟨a, ha, hid, hpid⟩ := parentF_eq_some hxy
    have hall := List.all_eq_true.mp h a ha
    rw [hpid] at hall
    subst hid
    exact of_decide_eq_true hall
  have hmono : ∀ x y, Relation.TransGen (ancStep assets) x y → f y < f x := by
    intro x y hxy
    induction hxy with
    | single h1 => exact hstep _ _ h1
    | tail _ h1 ih => exact lt_trans (hstep _ _ h1) ih
  intro x hx
  exact lt_irrefl _ (hmono x x hx)

/-! ## Facts about Move -/

theorem findAsset_id {db : DB} {i : Nat} {a : Asset} (h : findAsset db i = some a) :
    a.id = i := by
  simpa using List.find?_some h

theorem findAsset_mem {db : DB} {i : Nat} {a : Asset} (h : findAsset db i = some a) :
    a ∈ db.assets :=
  List.mem_of_find?_eq_some h

theorem parentGuard_ok_inv {db : DB} {aid : Nat} {npid : Option Nat} {d : String} {u : Unit}
    (h : parentGuard db aid npid d = .ok u) :
    ∀ pid, npid = some pid →
      (findAsset db pid).isSome = true ∧
      is_descendant db.assets (db.assets.length + 1) pid aid = false := by
  intro pid hpid
  subst hpid
  have h1 : (match findAsset db pid with
             | none =>
               (Except.error (ApiError.invalidOperation "Parent asset not found") :
                 Except ApiError Unit)
             | some _ =>
               if is_descendant db.assets (db.assets.length + 1) pid aid = true then
                 Except.error (ApiError.invalidOperation d)
               else .ok ()) = .ok u := h
  cases hp : findAsset db pid with
  | none => rw [hp] at h1; exact absurd h1 (by simp)
  | some pa =>
    rw [hp] at h1
    have h2 : (if is_descendant db.assets (db.assets.length + 1) pid aid = true then
                 (Except.error (ApiError.invalidOperation d) : Except ApiError Unit)
               else .ok ()) = .ok u := h1
    by_cases hdesc : is_descendant db.assets (db.assets.length + 1) pid aid = true
    · rw [if_pos hdesc] at h2
      exact absurd h2 (by simp)
    · exact ⟨rfl, by simpa using hdesc⟩

theorem move_ok_inv {db : DB} {aid : Nat} {npid : Option Nat} {ts : Nat} {db' : DB}
    {a' : Asset} (h : move_asset db aid npid ts = .ok (db', a')) :
    ∃ asset, findAsset db aid = some asset ∧
      (∀ pid, npid = some pid →
        (findAsset db pid).isSome = true ∧
        is_descendant db.assets (db.assets.length + 1) pid aid = false) ∧
      (db', a') = moveCommit db asset aid npid ts := by
  unfold move_asset at h
  cases hfind : findAsset db aid with
  | none => rw [hfind] at h; exact absurd h (by simp)
  | some asset =>
    rw [hfind] at h
    replace h : (match parentGuard db aid npid "Cannot move an asset to its own descendant" with
               | .error e => (Except.error e : Except ApiError (DB × Asset))
               | .ok _ => .ok (moveCommit db asset aid npid ts)) = .ok (db', a') := h
    have h2 : (match parentGuard db aid npid "Cannot move an asset to its own descendant" with
               | .error e => (Except.error e : Except ApiError (DB × Asset))
               | .ok _ => .ok (moveCommit db asset aid npid ts)) = .ok (db', a') := h
    cases hg : parentGuard db aid npid "Cannot move an asset to its own descendant" with
    | error e => rw [hg] at h2; exact absurd h2 (by simp)
    | ok u =>
      rw [hg] at h2
      have h3 : Except.ok (ε := ApiError) (moveCommit db asset aid npid ts) = .ok (db', a') := h2
      exact ⟨asset, rfl, parentGuard_ok_inv hg, (Except.ok.inj h3).symm⟩

theorem moveCommit_assets (db : DB) (asset : Asset) (aid : Nat) (npid : Option Nat)
    (ts : Nat) :
    (moveCommit db asset aid npid ts).1.assets =
      db.assets.map (fun a =>
        if a.id = aid then
          { asset with name := resolveMoveName db.assets asset npid ts, parent_id := npid }
        else a) := rfl

theorem parentF_after_move {db : DB} {aid : Nat} {asset : Asset}
    (hfind : findAsset db aid = some asset) (npid : Option Nat) (ts : Nat) (x : Nat) :
    parentF (moveCommit db asset aid npid ts).1.assets x =
      if x = aid then npid else parentF db.assets x := by
  have hid : asset.id = aid := findAsset_id hfind
  set asset' : Asset :=
    { asset with name := resolveMoveName db.assets asset npid ts, parent_id := npid } with ha'
  set f : Asset → Asset := fun a => if a.id = aid then asset' else a with hf
  have hidf : ∀ a : Asset, (f a).id = a.id := by
    intro a
    by_cases hcase : a.id = aid
    · simp only [hf, if_pos hcase, ha']
      exact hid.trans hcase.symm
    · simp [hf, hcase]
  have hpred : (fun a : Asset => decide (a.id = x)) ∘ f = fun a : Asset => decide (a.id = x) := by
    funext a
    simp [Function.comp, hidf a]
  unfold parentF
  rw [moveCommit_assets]
  show ((db.assets.map f).find? (fun a => a.id = x)).bind (fun a => a.parent_id) = _
  rw [List.find?_map, hpred]
  unfold findAsset at hfind
  cases hfx : db.assets.find? (fun a => a.id = x) with
  | none =>
    by_cases hx : x = aid
    · subst hx
      rw [hfind] at hfx
      cases hfx
    · simp [hx]
  | some b =>
    have hbid : b.id = x := by simpa using List.find?_some hfx
    show (f b).parent_id = if x = aid then npid else b.parent_id
    by_cases hx : x = aid
    · rw [if_pos hx]
      have hfb : f b = asset' := by simp [hf, hbid, hx]
      rw [hfb]
    · rw [if_neg hx]
      have hfb : f b = b := by simp [hf, hbid, hx]
      rw [hfb]

theorem ancStep_after_move {db : DB} {aid : Nat} {asset : Asset}
    (hfind : findAsset db aid = some asset) {npid : Option Nat} {ts : Nat} {x y : Nat}
    (h : ancStep (moveCommit db asset aid npid ts).1.assets x y) :
    (x = aid ∧ npid = some y) ∨ (x ≠ aid ∧ ancStep db.assets x y) := by
  unfold ancStep at h
  rw [parentF_after_move hfind npid ts x] at h
  by_cases hx : x = aid
  · rw [if_pos hx] at h
    exact Or.inl ⟨hx, h⟩
  · rw [if_neg hx] at h
    exact Or.inr ⟨hx, h⟩

theorem move_ok_acyclic {db : DB} {aid : Nat} {npid : Option Nat} {ts : Nat} {db' : DB}
    {a' : Asset} (hacy : Acyclic db.assets)
    (h : move_asset db aid npid ts = .ok (db', a')) : Acyclic db'.assets := by
  obtain ⟨asset, hfind, hguard, hcommit⟩ := move_ok_inv h
  have hdb' : db' = (moveCommit db asset aid npid ts).1 := congrArg Prod.fst hcommit
  subst hdb'
  have hr' : ∀ x y, ancStep (moveCommit db asset aid npid ts).1.assets x y →
      (x = aid ∧ npid = some y) ∨ (x ≠ aid ∧ ancStep db.assets x y) :=
    fun x y hxy => ancStep_after_move hfind hxy
  have L1 : ∀ z w, Relation.TransGen (ancStep (moveCommit db asset aid npid ts).1.assets) z w →
      Relation.TransGen (ancStep db.assets) z w ∨
        (Relation.ReflTransGen (ancStep db.assets) z aid ∧
         ∃ p, npid = some p ∧
           Relation.ReflTransGen (ancStep (moveCommit db asset aid npid ts).1.assets) p w) := by
    intro z w hzw
    induction hzw using Relation.TransGen.head_induction_on with
    | base step =>
      rcases hr' _ _ step with ⟨hz, hp⟩ | ⟨_, hstep⟩
      · subst hz
        exact Or.inr ⟨Relation.ReflTransGen.refl, _, hp, Relation.ReflTransGen.refl⟩
      · exact Or.inl (Relation.TransGen.single hstep)
    | ih step tail ihp =>
      rcases hr' _ _ step with ⟨hz, hp⟩ | ⟨_, hstep⟩
      · subst hz
        exact Or.inr ⟨Relation.ReflTransGen.refl, _, hp, tail.to_reflTransGen⟩
      · rcases ihp with h0 | ⟨hza, restp⟩
        · exact Or.inl (Relation.TransGen.head hstep h0)
        · exact Or.inr ⟨Relation.ReflTransGen.head hstep hza, restp⟩
  have L2 : ∀ p w,
      Relation.ReflTransGen (ancStep (moveCommit db asset aid npid ts).1.assets) p w →
      Relation.ReflTransGen (ancStep db.assets) p w ∨
        Relation.ReflTransGen (ancStep db.assets) p aid := by
    intro p w hpw
    induction hpw using Relation.ReflTransGen.head_induction_on with
    | refl => exact Or.inl Relation.ReflTransGen.refl
    | head step tail ihp =>
      rcases hr' _ _ step with ⟨hz, _⟩ | ⟨_, hstep⟩
      · subst hz
        exact Or.inr Relation.ReflTransGen.refl
      · rcases ihp with h0 | h1
        · exact Or.inl (Relation.ReflTransGen.head hstep h0)
        · exact Or.inr (Relation.ReflTransGen.head hstep h1)
  intro z hz
  rcases L1 z z hz with h0 | ⟨hza, p, hp, hrest⟩
  · exact hacy z h0
  · have hpa : Relation.ReflTransGen (ancStep db.assets) p aid := by
      rcases L2 p z hrest with h1 | h1
      · exact h1.trans hza
      · exact h1
    have hcomplete : is_descendant db.assets (db.assets.length + 1) p aid = true :=
      is_descendant_complete hacy hpa
        (List.mem_map.mpr ⟨asset, findAsset_mem hfind, findAsset_id hfind⟩)
    have hfalse := (hguard p hp).2
    rw [hcomplete] at hfalse
    cases hfalse

theorem move_ok_nodup {db : DB} {aid : Nat} {npid : Option Nat} {ts : Nat} {db' : DB}
    {a' : Asset} (hnd : NodupIds db.assets)
    (h : move_asset db aid npid ts = .ok (db', a')) : NodupIds db'.assets := by
  obtain ⟨asset, hfind, _, hcommit⟩ := move_ok_inv h
  have hdb' : db' = (moveCommit db asset aid npid ts).1 := congrArg Prod.fst hcommit
  subst hdb'
  have hid : asset.id = aid := findAsset_id hfind
  unfold NodupIds
  rw [moveCommit_assets, List.map_map]
  have : ((fun a : Asset => a.id) ∘ fun a =>
      if a.id = aid then
        { asset with name := resolveMoveName db.assets asset npid ts, parent_id := npid }
      else a) = fun a : Asset => a.id := by
    funext a
    by_cases hcase : a.id = aid
    · simp [Function.comp, hcase, hid]
    · simp [Function.comp, hcase]
  rw [this]
  exact hnd

/-- C1: starting from a store with distinct row ids whose parent graph is
acyclic, no sequence of Move requests — each one succeeding or failing with the
`is_descendant` guard — can make any asset its own ancestor: the parent graph
stays acyclic after every sequence of Moves. -/
theorem C1_moves_preserve_acyclicity (db : DB) (ms : List (Nat × Option Nat × Nat))
    (hnd : NodupIds db.assets) (hacy : Acyclic db.assets) :
    Acyclic (applyMoves db ms).assets := by
  induction ms generalizing db with
  | nil => exact hacy
  | cons m rest ih =>
    obtain ⟨aid, npid, ts⟩ := m
    show Acyclic (applyMoves db ((aid, npid, ts) :: rest)).assets
    unfold applyMoves
    cases hm : move_asset db aid npid ts with
    | ok pr =>
      obtain ⟨db', a'⟩ := pr
      exact ih db' (move_ok_nodup hnd hm) (move_ok_acyclic hacy hm)
    | error e => exact ih db hnd hacy

/-- Witness for C1 at a concrete store and a concrete pair of Moves. -/
theorem C1_moves_preserve_acyclicity_witness :
    Acyclic (applyMoves wdb [(2, none, 0), (3, some 1, 7)]).assets :=
  C1_moves_preserve_acyclicity wdb [(2, none, 0), (3, some 1, 7)]
    (by unfold NodupIds; decide)
    (acyclic_of_ranked wdb.assets (fun n => n) (by unfold rankedB; decide))

/-! ## Equation lemmas for Move, and claims C8, C9, C10 -/

theorem parentGuard_none (db : DB) (aid : Nat) (d : String) :
    parentGuard db aid none d = .ok () := rfl

theorem parentGuard_missing {db : DB} {pid : Nat} (aid : Nat) (d : String)
    (hp : findAsset db pid = none) :
    parentGuard db aid (some pid) d = .error (.invalidOperation "Parent asset not found") := by
  show (match findAsset db pid with
        | none =>
          (Except.error (ApiError.invalidOperation "Parent asset not found") :
            Except ApiError Unit)
        | some _ =>
          if is_descendant db.assets (db.assets.length + 1) pid aid = true then
            Except.error (ApiError.invalidOperation d)
          else .ok ()) = _
  rw [hp]

theorem parentGuard_found {db : DB} {pid : Nat} {pa : Asset} (aid : Nat) (d : String)
    (hp : findAsset db pid = some pa) :
    parentGuard db aid (some pid) d =
      if is_descendant db.assets (db.assets.length + 1) pid aid then
        .error (.invalidOperation d)
      else .ok () := by
  show (match findAsset db pid with
        | none =>
          (Except.error (ApiError.invalidOperation "Parent asset not found") :
            Except ApiError Unit)
        | some _ =>
          if is_descendant db.assets (db.assets.length + 1) pid aid = true then
            Except.error (ApiError.invalidOperation d)
          else .ok ()) = _
  rw [hp]

theorem move_asset_eq_notFound {db : DB} {aid : Nat} (npid : Option Nat) (ts : Nat)
    (h : findAsset db aid = none) :
    move_asset db aid npid ts = .error (.notFound "Asset not found") := by
  unfold move_asset
  rw [h]

theorem move_asset_eq_guard {db : DB} {aid : Nat} {asset : Asset} (npid : Option Nat)
    (ts : Nat) (hfind : findAsset db aid = some asset) :
    move_asset db aid npid ts =
      match parentGuard db aid npid "Cannot move an asset to its own descendant" with
      | .error e => .error e
      | .ok _ => .ok (moveCommit db asset aid npid ts) := by
  unfold move_asset
  rw [hfind]

/-- C8 (as stated) is wrong about the error class of a missing new parent: the
code raises `HTTPException(400, "Parent asset not found")` — an
`InvalidOperation` — not a 404 `NotFound`.  Concrete counterexample: asset 1
exists in `wdb`, parent 9 does not. -/
theorem C8_counterexample :
    moveErrorOf wdb 1 (some 9) 0 = some (.invalidOperation "Parent asset not found") := by
  decide

/-- C8 (amended): Move fails with `NotFound` exactly when the asset is missing;
it fails with `InvalidOperation` exactly when the asset exists and either the
non-null new parent is missing or the new parent is a descendant-or-self of the
asset (the recursive child-walk `is_descendant` decides exactly
descendant-or-self-ness in an acyclic store with distinct ids). -/
theorem C8_amended_move_error_classes (db : DB) (aid : Nat) (npid : Option Nat) (ts : Nat)
    (hnd : NodupIds db.assets) (hacy : Acyclic db.assets) :
    ((∃ d, move_asset db aid npid ts = .error (.notFound d)) ↔ findAsset db aid = none) ∧
    ((∃ d, move_asset db aid npid ts = .error (.invalidOperation d)) ↔
      ((∃ a, findAsset db aid = some a) ∧ ∃ pid, npid = some pid ∧
        (findAsset db pid = none ∨ DescSelf db.assets aid pid))) := by
  cases hfind : findAsset db aid with
  | none =>
    rw [move_asset_eq_notFound npid ts hfind]
    constructor
    · constructor
      · intro _; rfl
      · intro _; exact ⟨"Asset not found", rfl⟩
    · constructor
      · rintro ⟨d, hd⟩; cases hd
      · rintro ⟨⟨a, ha⟩, _⟩; cases ha
  | some asset =>
    rw [move_asset_eq_guard npid ts hfind]
    have hmem : aid ∈ db.assets.map (fun a => a.id) :=
      List.mem_map.mpr ⟨asset, findAsset_mem hfind, findAsset_id hfind⟩
    cases npid with
    | none =>
      rw [parentGuard_none]
      constructor
      · constructor
        · rintro ⟨d, hd⟩; cases hd
        · intro h; exact Option.noConfusion h
      · constructor
        · rintro ⟨d, hd⟩; cases hd
        · rintro ⟨_, pid, hpid, _⟩; cases hpid
    | some pid =>
      cases hp : findAsset db pid with
      | none =>
        rw [parentGuard_missing aid _ hp]
        constructor
        · constructor
          · rintro ⟨d, hd⟩; cases hd
          · intro h; exact Option.noConfusion h
        · constructor
          · intro _; exact ⟨⟨asset, rfl⟩, pid, rfl, Or.inl hp⟩
          · intro _; exact ⟨"Parent asset not found", rfl⟩
      | some pa =>
        rw [parentGuard_found aid _ hp]
        by_cases hdesc : is_descendant db.assets (db.assets.length + 1) pid aid = true
        · rw [if_pos hdesc]
          constructor
          · constructor
            · rintro ⟨d, hd⟩; cases hd
            · intro h; exact Option.noConfusion h
          · constructor
            · intro _
              exact ⟨⟨asset, rfl⟩, pid, rfl,
                Or.inr (descSelf_of_is_descendant hnd hdesc)⟩
            · intro _; exact ⟨"Cannot move an asset to its own descendant", rfl⟩
        · rw [if_neg hdesc]
          constructor
          · constructor
            · rintro ⟨d, hd⟩; cases hd
            · intro h; exact Option.noConfusion h
          · constructor
            · rintro ⟨d, hd⟩; cases hd
            · rintro ⟨_, pid', hpid', hbad⟩
              injection hpid' with he
              subst he
              rcases hbad with hmiss | hds
              · rw [hmiss] at hp; cases hp
              · exact absurd (is_descendant_complete hacy hds hmem) hdesc

/-- Witness for the amended C8 at a concrete store: moving asset 1 under its
own child 2 is classified as `InvalidOperation` because 2 is a descendant. -/
theorem C8_amended_witness :
    ((∃ d, move_asset wdb 1 (some 2) 0 = .error (.notFound d)) ↔ findAsset wdb 1 = none) ∧
    ((∃ d, move_asset wdb 1 (some 2) 0 = .error (.invalidOperation d)) ↔
      ((∃ a, findAsset wdb 1 = some a) ∧ ∃ pid, (some 2 : Option Nat) = some pid ∧
        (findAsset wdb pid = none ∨ DescSelf wdb.assets 1 pid))) :=
  C8_amended_move_error_classes wdb 1 (some 2) 0 (by unfold NodupIds; decide)
    (acyclic_of_ranked wdb.assets (fun n => n) (by unfold rankedB; decide))

/-- C9: a successful Move never regenerates the asset's URN and changes no
column other than `parent_id` and — only when a sibling under the (changed) new
parent already holds the name — `name`: the committed row equals the old row
with only `name` and `parent_id` updated, its URN is the old URN, and the name
itself is unchanged unless the parent actually changed and was a collision. -/
theorem C9_move_frame {db : DB} {aid : Nat} {npid : Option Nat} {ts : Nat} {db' : DB}
    {a' a : Asset} (h : move_asset db aid npid ts = .ok (db', a'))
    (hfind : findAsset db aid = some a) :
    a' = { a with name := a'.name, parent_id := npid } ∧
    a'.urn = a.urn ∧
    ((npid = a.parent_id ∨ nameTaken db.assets npid a.name = false) → a'.name = a.name) := by
  obtain ⟨asset, hfind', _, hcommit⟩ := move_ok_inv h
  rw [hfind] at hfind'
  injection hfind' with he
  subst he
  have ha' : a' = { a with name := resolveMoveName db.assets a npid ts, parent_id := npid } :=
    congrArg Prod.snd hcommit
  refine ⟨by rw [ha'], by rw [ha'], ?_⟩
  intro hcase
  rw [ha']
  show resolveMoveName db.assets a npid ts = a.name
  unfold resolveMoveName
  rcases hcase with hsame | hfree
  · rw [if_neg]
    rintro ⟨hne, _⟩
    exact hne hsame
  · rw [if_neg]
    rintro ⟨_, htaken⟩
    rw [hfree] at htaken
    cases htaken

/-- Witness for C9: moving asset 2 of `wdb` to the root (where a sibling `"B"`
forces a rename) keeps every column except `name` and `parent_id`, and keeps
the URN. -/
theorem C9_move_frame_witness :
    move_asset wdb 2 none 0 = .ok (moveResult wdb 2 none 0) ∧
    findAsset wdb 2 = some (mkAsset 2 "B" (some 1)) ∧
    ((moveResult wdb 2 none 0).2 =
       { mkAsset 2 "B" (some 1) with
           name := (moveResult wdb 2 none 0).2.name, parent_id := none } ∧
     (moveResult wdb 2 none 0).2.urn = (mkAsset 2 "B" (some 1)).urn ∧
     (((none : Option Nat) = (mkAsset 2 "B" (some 1)).parent_id ∨
        nameTaken wdb.assets none (mkAsset 2 "B" (some 1)).name = false) →
       (moveResult wdb 2 none 0).2.name = (mkAsset 2 "B" (some 1)).name)) :=
  ⟨by decide, by decide,
   @C9_move_frame wdb 2 none 0 (moveResult wdb 2 none 0).1 (moveResult wdb 2 none 0).2
     (mkAsset 2 "B" (some 1)) (by decide) (by decide)⟩

/-- C10: moving an asset onto its current parent (null onto null included)
succeeds and is a no-op: the rename branch is skipped (new parent equals the
current parent), so the store and the row — name, URN, parent — are returned
unchanged; repeating the request gives the same result, so the operation is
idempotent. -/
theorem C10_move_to_same_parent_noop {db : DB} {aid : Nat} {a : Asset} (ts : Nat)
    (hnd : NodupIds db.assets) (hacy : Acyclic db.assets)
    (hwp : wellParentedB db.assets = true)
    (hfind : findAsset db aid = some a) :
    move_asset db aid a.parent_id ts = .ok (db, a) := by
  have hmem : a ∈ db.assets := findAsset_mem hfind
  have hid : a.id = aid := findAsset_id hfind
  rw [move_asset_eq_guard a.parent_id ts hfind]
  have hguard : parentGuard db aid a.parent_id "Cannot move an asset to its own descendant" =
      .ok () := by
    cases hp : a.parent_id with
    | none => exact parentGuard_none db aid _
    | some p =>
      have hsome : ∃ pa, findAsset db p = some pa := by
        have hall := List.all_eq_true.mp hwp a hmem
        rw [hp] at hall
        obtain ⟨y, hy, hyid⟩ := List.any_eq_true.mp hall
        cases hfp : findAsset db p with
        | none =>
          have := List.find?_eq_none.mp hfp y hy
          exact absurd hyid this
        | some pa => exact ⟨pa, rfl⟩
      obtain ⟨pa, hpa⟩ := hsome
      rw [parentGuard_found aid _ hpa]
      rw [if_neg]
      intro hdesc
      have hds : DescSelf db.assets aid p := descSelf_of_is_descendant hnd hdesc
      have hstep : ancStep db.assets aid p := by
        unfold ancStep
        rw [← hid, parentF_of_mem hnd hmem]
        exact hp
      exact hacy aid (Relation.TransGen.head' hstep hds)
  rw [hguard]
  have hname : resolveMoveName db.assets a a.parent_id ts = a.name := by
    unfold resolveMoveName
    rw [if_neg]
    rintro ⟨hne, _⟩
    exact hne rfl
  have hasset' : ({ a with
      name := resolveMoveName db.assets a a.parent_id ts
      parent_id := a.parent_id } : Asset) = a := by
    rw [hname]
  have hmap : db.assets.map (fun x =>
      if x.id = aid then
        { a with
            name := resolveMoveName db.assets a a.parent_id ts
            parent_id := a.parent_id }
      else x) = db.assets := by
    have h1 : ∀ x ∈ db.assets,
        (if x.id = aid then
          ({ a with
              name := resolveMoveName db.assets a a.parent_id ts
              parent_id := a.parent_id } : Asset)
        else x) = x := by
      intro x hx
      by_cases hcase : x.id = aid
      · have hxa : x = a :=
          List.inj_on_of_nodup_map hnd hx hmem (hcase.trans hid.symm)
        rw [if_pos hcase, hasset', hxa]
      · rw [if_neg hcase]
    rw [List.map_congr_left h1, List.map_id']
  show Except.ok (moveCommit db a aid a.parent_id ts) = .ok (db, a)
  have hcommit : moveCommit db a aid a.parent_id ts = (db, a) := by
    show ({ db with assets := db.assets.map (fun x =>
        if x.id = aid then
          { a with
              name := resolveMoveName db.assets a a.parent_id ts
              parent_id := a.parent_id }
        else x) },
      ({ a with
          name := resolveMoveName db.assets a a.parent_id ts
          parent_id := a.parent_id } : Asset)) = (db, a)
    rw [hmap, hasset']
  rw [hcommit]

/-- Witness for C10: re-submitting asset 2's current parent (asset 1) is a
successful no-op on the concrete store. -/
theorem C10_move_to_same_parent_noop_witness :
    move_asset wdb 2 (mkAsset 2 "B" (some 1)).parent_id 9 = .ok (wdb, mkAsset 2 "B" (some 1)) :=
  C10_move_to_same_parent_noop 9 (by unfold NodupIds; decide)
    (acyclic_of_ranked wdb.assets (fun n => n) (by unfold rankedB; decide))
    (by decide) (by decide)

/-! ## Claim C2: the Move rename policy -/

theorem findUniqueName_spec (assets : List Asset) (pid : Option Nat) (base : String) :
    ∀ (left counter : Nat),
      (∃ k, counter ≤ k ∧ k < counter + left ∧
         nameTaken assets pid (base ++ " (" ++ toString k ++ ")") = false ∧
         (∀ j, counter ≤ j → j < k →
           nameTaken assets pid (base ++ " (" ++ toString j ++ ")") = true) ∧
         findUniqueName assets pid base counter left =
           some (base ++ " (" ++ toString k ++ ")")) ∨
      ((∀ j, counter ≤ j → j < counter + left →
          nameTaken assets pid (base ++ " (" ++ toString j ++ ")") = true) ∧
        findUniqueName assets pid base counter left = none) := by
  intro left
  induction left with
  | zero =>
    intro counter
    exact Or.inr ⟨fun j h1 h2 => absurd h2 (by omega), rfl⟩
  | succ left ih =>
    intro counter
    by_cases htaken : nameTaken assets pid (base ++ " (" ++ toString counter ++ ")") = true
    · have hstep : findUniqueName assets pid base counter (left + 1) =
          findUniqueName assets pid base (counter + 1) left := by
        show (if nameTaken assets pid (base ++ " (" ++ toString counter ++ ")") = true then
                findUniqueName assets pid base (counter + 1) left
              else some (base ++ " (" ++ toString counter ++ ")")) = _
        rw [if_pos htaken]
      rcases ih (counter + 1) with ⟨k, h1, h2, hfree, hmin, heq⟩ | ⟨hall, heq⟩
      · refine Or.inl ⟨k, by omega, by omega, hfree, ?_, hstep.trans heq⟩
        intro j hj1 hj2
        rcases Nat.eq_or_lt_of_le hj1 with hj | hj
        · rw [← hj]; exact htaken
        · exact hmin j hj hj2
      · refine Or.inr ⟨?_, hstep.trans heq⟩
        intro j hj1 hj2
        rcases Nat.eq_or_lt_of_le hj1 with hj | hj
        · rw [← hj]; exact htaken
        · exact hall j hj (by omega)
    · have hfree : nameTaken assets pid (base ++ " (" ++ toString counter ++ ")") = false := by
        simpa using htaken
      have hstep : findUniqueName assets pid base counter (left + 1) =
          some (base ++ " (" ++ toString counter ++ ")") := by
        show (if nameTaken assets pid (base ++ " (" ++ toString counter ++ ")") = true then
                findUniqueName assets pid base (counter + 1) left
              else some (base ++ " (" ++ toString counter ++ ")")) = _
        rw [if_neg htaken]
      exact Or.inl ⟨counter, le_refl _, by omega, hfree,
        fun j h1 h2 => absurd h2 (by omega), hstep⟩

theorem resolveMoveName_collision {assets : List Asset} {asset : Asset} {npid : Option Nat}
    (ts : Nat) (hmove : npid ≠ asset.parent_id)
    (hcol : nameTaken assets npid asset.name = true) :
    resolveMoveName assets asset npid ts =
      match findUniqueName assets npid (moveRenameBase asset.name)
          (moveRenameStart asset.name) (1001 - moveRenameStart asset.name) with
      | some nm => nm
      | none => moveRenameBase asset.name ++ " (" ++ toString ts ++ ")" := by
  unfold resolveMoveName
  rw [if_pos ⟨hmove, hcol⟩]
  unfold moveRenameBase moveRenameStart
  cases hps : parenSuffix asset.name with
  | none => rfl
  | some gn => rfl

/-- C2 (as stated) is wrong about the probe start: with no parenthesized suffix
the code starts the counter at `1`, not `2`, so the spec's own scenario — child
`"B"` moved to the root while a root `"B"` exists and no root `"B (2)"` exists —
yields `"B (1)"`, not `"B (2)"`. -/
theorem C2_counterexample :
    movedNameOf wdb 2 none 0 = some "B (1)" ∧ movedNameOf wdb 2 none 0 ≠ some "B (2)" := by
  decide

/-- C2 (amended): when Move changes the parent onto a sibling-name collision,
the new name comes from this policy: if the current name ends in a
parenthesized integer suffix `"<base> (<n>)"`, extract `base` and probe
`"<base> (<k>)"` from `k = n + 1`; otherwise probe from `k = 1` (not 2).  The
loop takes the first free name with `k ≤ 1000`; if every probed name up to 1000
is taken it falls back to the Unix-timestamp suffix.  In particular the spec's
scenario yields `"B (1)"`. -/
theorem C2_amended_rename_policy (assets : List Asset) (asset : Asset) (npid : Option Nat)
    (ts : Nat) (hmove : npid ≠ asset.parent_id)
    (hcol : nameTaken assets npid asset.name = true) :
    (∃ k, moveRenameStart asset.name ≤ k ∧ k ≤ 1000 ∧
       nameTaken assets npid (moveRenameBase asset.name ++ " (" ++ toString k ++ ")") = false ∧
       (∀ j, moveRenameStart asset.name ≤ j → j < k →
         nameTaken assets npid (moveRenameBase asset.name ++ " (" ++ toString j ++ ")") = true) ∧
       resolveMoveName assets asset npid ts =
         moveRenameBase asset.name ++ " (" ++ toString k ++ ")") ∨
    ((∀ j, moveRenameStart asset.name ≤ j → j ≤ 1000 →
        nameTaken assets npid (moveRenameBase asset.name ++ " (" ++ toString j ++ ")") = true) ∧
      resolveMoveName assets asset npid ts =
        moveRenameBase asset.name ++ " (" ++ toString ts ++ ")") := by
  have hres := resolveMoveName_collision ts hmove hcol
  rcases findUniqueName_spec assets npid (moveRenameBase asset.name)
      (1001 - moveRenameStart asset.name) (moveRenameStart asset.name) with
    ⟨k, h1, h2, hfree, hmin, heq⟩ | ⟨hall, heq⟩
  · refine Or.inl ⟨k, h1, by omega, hfree, hmin, ?_⟩
    rw [hres, heq]
  · refine Or.inr ⟨?_, ?_⟩
    · intro j hj1 hj2
      exact hall j hj1 (by omega)
    · rw [hres, heq]

/-- Witness for the amended C2 at the spec's scenario (store `wdb`): probing
starts at 1 and `"B (1)"` is free, so the first disjunct holds with `k = 1`. -/
theorem C2_amended_rename_policy_witness :
    ((none : Option Nat) ≠ (mkAsset 2 "B" (some 1)).parent_id ∧
     nameTaken wdb.assets none (mkAsset 2 "B" (some 1)).name = true) ∧
    ((∃ k, moveRenameStart (mkAsset 2 "B" (some 1)).name ≤ k ∧ k ≤ 1000 ∧
       nameTaken wdb.assets none
         (moveRenameBase (mkAsset 2 "B" (some 1)).name ++ " (" ++ toString k ++ ")") = false ∧
       (∀ j, moveRenameStart (mkAsset 2 "B" (some 1)).name ≤ j → j < k →
         nameTaken wdb.assets none
           (moveRenameBase (mkAsset 2 "B" (some 1)).name ++ " (" ++ toString j ++ ")") = true) ∧
       resolveMoveName wdb.assets (mkAsset 2 "B" (some 1)) none 0 =
         moveRenameBase (mkAsset 2 "B" (some 1)).name ++ " (" ++ toString k ++ ")") ∨
    ((∀ j, moveRenameStart (mkAsset 2 "B" (some 1)).name ≤ j → j ≤ 1000 →
        nameTaken wdb.assets none
          (moveRenameBase (mkAsset 2 "B" (some 1)).name ++ " (" ++ toString j ++ ")") = true) ∧
      resolveMoveName wdb.assets (mkAsset 2 "B" (some 1)) none 0 =
        moveRenameBase (mkAsset 2 "B" (some 1)).name ++ " (" ++ toString 0 ++ ")")) :=
  ⟨⟨by decide, by decide⟩,
   C2_amended_rename_policy wdb.assets (mkAsset 2 "B" (some 1)) none 0 (by decide) (by decide)⟩

/-! ## Claims C4 and C5: BOM diffing -/

theorem find_item_of_mem_ids (items : List BOMItemRec) (cid : String)
    (h : cid ∈ (items.map (fun i => i.component_id)).toFinset) :
    ∃ i0, items.find? (fun i => i.component_id = cid) = some i0 ∧
      i0 ∈ items ∧ i0.component_id = cid := by
  rw [List.mem_toFinset, List.mem_map] at h
  obtain ⟨i, hi, hic⟩ := h
  cases hf : items.find? (fun it => it.component_id = cid) with
  | none =>
    have := List.find?_eq_none.mp hf i hi
    simp [hic] at this
  | some j =>
    exact ⟨j, rfl, List.mem_of_find?_eq_some hf, by simpa using List.find?_some hf⟩

/-- C4: `calculate_changes` computes exactly the spec's diff — `added = |C − P|`,
`removed = |P − C|`, `updated` counts the common ids whose recorded version
strings differ (component ids being unique within each snapshot, per the data
model) — and returns `(total_components, 0, 0)` when no previous snapshot
exists. -/
theorem C4_diff_matches_spec (cur prev : BOMHistoryRec)
    (hc : (cur.bom_items.map (fun i => i.component_id)).Nodup)
    (hp : (prev.bom_items.map (fun i => i.component_id)).Nodup) :
    calculate_changes cur (some prev) = specDiff cur prev ∧
    calculate_changes cur none = (cur.total_components, 0, 0) := by
  refine ⟨?_, rfl⟩
  have key : ∀ cid ∈ (cur.bom_items.map (fun i => i.component_id)).toFinset ∩
      (prev.bom_items.map (fun i => i.component_id)).toFinset,
      ((cur.bom_items.find? (fun i => i.component_id = cid)).map (fun i => i.version) ≠
       (prev.bom_items.find? (fun i => i.component_id = cid)).map (fun i => i.version)) =
      (∃ i ∈ cur.bom_items, ∃ j ∈ prev.bom_items,
        i.component_id = cid ∧ j.component_id = cid ∧ i.version ≠ j.version) := by
    intro cid hcid
    rw [Finset.mem_inter] at hcid
    obtain ⟨i0, hfi, hmi, hci⟩ := find_item_of_mem_ids _ _ hcid.1
    obtain ⟨j0, hfj, hmj, hcj⟩ := find_item_of_mem_ids _ _ hcid.2
    rw [hfi, hfj]
    apply propext
    constructor
    · intro hne
      exact ⟨i0, hmi, j0, hmj, hci, hcj, by simpa using hne⟩
    · rintro ⟨i, hi, j, hj, hic, hjc, hv⟩
      have hii : i = i0 := List.inj_on_of_nodup_map hc hi hmi (hic.trans hci.symm)
      have hjj : j = j0 := List.inj_on_of_nodup_map hp hj hmj (hjc.trans hcj.symm)
      subst hii
      subst hjj
      simpa using hv
  have h3 : (((cur.bom_items.map (fun i => i.component_id)).toFinset ∩
        (prev.bom_items.map (fun i => i.component_id)).toFinset).filter (fun cid =>
          (cur.bom_items.find? (fun i => i.component_id = cid)).map (fun i => i.version) ≠
          (prev.bom_items.find? (fun i => i.component_id = cid)).map (fun i => i.version))) =
      (((cur.bom_items.map (fun i => i.component_id)).toFinset ∩
        (prev.bom_items.map (fun i => i.component_id)).toFinset).filter (fun cid =>
          ∃ i ∈ cur.bom_items, ∃ j ∈ prev.bom_items,
            i.component_id = cid ∧ j.component_id = cid ∧ i.version ≠ j.version)) := by
    apply Finset.filter_congr
    intro x hx
    rw [key x hx]
  show (((cur.bom_items.map (fun i => i.component_id)).toFinset \
          (prev.bom_items.map (fun i => i.component_id)).toFinset).card,
        ((prev.bom_items.map (fun i => i.component_id)).toFinset \
          (cur.bom_items.map (fun i => i.component_id)).toFinset).card,
        (((cur.bom_items.map (fun i => i.component_id)).toFinset ∩
          (prev.bom_items.map (fun i => i.component_id)).toFinset).filter (fun cid =>
            (cur.bom_items.find? (fun i => i.component_id = cid)).map (fun i => i.version) ≠
            (prev.bom_items.find? (fun i => i.component_id = cid)).map
              (fun i => i.version))).card) =
      (((cur.bom_items.map (fun i => i.component_id)).toFinset \
          (prev.bom_items.map (fun i => i.component_id)).toFinset).card,
        ((prev.bom_items.map (fun i => i.component_id)).toFinset \
          (cur.bom_items.map (fun i => i.component_id)).toFinset).card,
        (((cur.bom_items.map (fun i => i.component_id)).toFinset ∩
          (prev.bom_items.map (fun i => i.component_id)).toFinset).filter (fun cid =>
            ∃ i ∈ cur.bom_items, ∃ j ∈ prev.bom_items,
              i.component_id = cid ∧ j.component_id = cid ∧ i.version ≠ j.version)).card)
  rw [h3]

/-- Witness for C4 on two concrete snapshots: `X@1.0, Y@1.0` → `X@1.1, Z@1.0`
gives `added = 1`, `removed = 1`, `updated = 1`. -/
theorem C4_diff_matches_spec_witness :
    ((wsnapCur.bom_items.map (fun i => i.component_id)).Nodup ∧
     (wsnapPrev.bom_items.map (fun i => i.component_id)).Nodup) ∧
    (calculate_changes wsnapCur (some wsnapPrev) = specDiff wsnapCur wsnapPrev ∧
     calculate_changes wsnapCur none = (wsnapCur.total_components, 0, 0)) ∧
    calculate_changes wsnapCur (some wsnapPrev) = (1, 1, 1) :=
  ⟨⟨by decide, by decide⟩,
   C4_diff_matches_spec wsnapCur wsnapPrev (by decide) (by decide),
   by decide⟩

/-- C5 is a code bug: `upload_bom` never invokes `calculate_changes`, so the
persisted snapshot keeps the column defaults `components_added =
components_removed = components_updated = 0`.  At the failing input — a
one-component custom BOM uploaded to a leaf asset with no previous snapshot —
the claim (and `calculate_changes`, had it been called) demands stored
`added = 1`, but the stored snapshot carries `added = 0`. -/
theorem C5_upload_stores_zero_change_counts :
    uploadOutcome wleaf 1 oneComponentDoc "v1" "SBOM" "Manual Upload" 5 50 =
      some (1, 0, 0, 0, 1) ∧
    (upload_bom wleaf 1 oneComponentDoc "v1" "SBOM" "Manual Upload" 5 50).toOption.map
        (fun pr => (calculate_changes pr.2 none, pr.2.components_added)) =
      some ((1, 0, 0), 0) := by
  constructor
  · decide
  · decide

/-! ## Claim C6: Delete -/

theorem is_descendant_false_iff {assets : List Asset} (hnd : NodupIds assets)
    (hacy : Acyclic assets) {t : Nat} (ht : t ∈ assets.map (fun a => a.id)) (k : Nat) :
    is_descendant assets (assets.length + 1) k t = false ↔ ¬ DescSelf assets t k := by
  constructor
  · intro hfalse hds
    rw [is_descendant_complete hacy hds ht] at hfalse
    cases hfalse
  · intro hnds
    by_contra h
    have htrue : is_descendant assets (assets.length + 1) k t = true := by
      simpa using h
    exact hnds (descSelf_of_is_descendant hnd htrue)

/-- C6: Delete fails with `NotFound` when the asset is missing; without
`cascade` and with a direct child present it fails with `InvalidOperation`
(the store untouched — errors raise before the commit); otherwise it succeeds
and removes exactly the descendant-or-self subtree together with every BOM
history owned by a removed asset (`ondelete="CASCADE"` on `assets.parent_id`
and `bom_history.asset_id`); for a leaf the subtree is just the asset
itself. -/
theorem C6_delete_semantics (db : DB) (aid : Nat) (cascade : Bool)
    (hnd : NodupIds db.assets) (hacy : Acyclic db.assets) :
    (findAsset db aid = none →
       delete_asset db aid cascade = .error (.notFound "Asset not found")) ∧
    ((∃ a, findAsset db aid = some a) → cascade = false → childrenOf db.assets aid ≠ [] →
       delete_asset db aid cascade =
         .error (.invalidOperation "Asset has children. Use cascade=true to delete all children.")) ∧
    ((∃ a, findAsset db aid = some a) → (cascade = true ∨ childrenOf db.assets aid = []) →
       ∃ db2, delete_asset db aid cascade = .ok db2 ∧
         (∀ x : Asset, x ∈ db2.assets ↔ x ∈ db.assets ∧ ¬ DescSelf db.assets aid x.id) ∧
         (∀ b : BOMHistoryRec, b ∈ db2.boms ↔
            b ∈ db.boms ∧ ¬ DescSelf db.assets aid b.asset_id)) ∧
    (childrenOf db.assets aid = [] → ∀ x, DescSelf db.assets aid x → x = aid) := by
  refine ⟨?_, ?_, ?_, ?_⟩
  · intro h
    unfold delete_asset
    rw [h]
  · rintro ⟨a, ha⟩ hcas hne
    unfold delete_asset
    rw [ha]
    have hcond : (!cascade && !(childrenOf db.assets aid).isEmpty) = true := by
      rw [hcas]
      simp [List.isEmpty_iff, hne]
    rw [if_pos hcond]
  · rintro ⟨a, ha⟩ hcase
    have hmemid : aid ∈ db.assets.map (fun x => x.id) :=
      List.mem_map.mpr ⟨a, findAsset_mem ha, findAsset_id ha⟩
    unfold delete_asset
    rw [ha]
    have hcond : (!cascade && !(childrenOf db.assets aid).isEmpty) = false := by
      rcases hcase with hcas | hemp
      · rw [hcas]
        rfl
      · simp [List.isEmpty_iff, hemp]
    rw [if_neg (by simp [hcond])]
    refine ⟨_, rfl, ?_, ?_⟩
    · intro x
      rw [List.mem_filter]
      constructor
      · rintro ⟨hx, hpx⟩
        refine ⟨hx, ?_⟩
        have hfalse : is_descendant db.assets (db.assets.length + 1) x.id aid = false := by
          simpa using hpx
        exact (is_descendant_false_iff hnd hacy hmemid x.id).mp hfalse
      · rintro ⟨hx, hnds⟩
        refine ⟨hx, ?_⟩
        have hfalse := (is_descendant_false_iff hnd hacy hmemid x.id).mpr hnds
        simp [hfalse]
    · intro b
      rw [List.mem_filter]
      constructor
      · rintro ⟨hb, hpb⟩
        refine ⟨hb, ?_⟩
        have hfalse : is_descendant db.assets (db.assets.length + 1) b.asset_id aid = false := by
          simpa using hpb
        exact (is_descendant_false_iff hnd hacy hmemid b.asset_id).mp hfalse
      · rintro ⟨hb, hnds⟩
        refine ⟨hb, ?_⟩
        have hfalse := (is_descendant_false_iff hnd hacy hmemid b.asset_id).mpr hnds
        simp [hfalse]
  · intro hemp x hx
    induction hx using Relation.ReflTransGen.head_induction_on with
    | refl => rfl
    | head step tail ih =>
      subst ih
      obtain ⟨c, hc, _⟩ := child_of_ancStep step
      rw [hemp] at hc
      cases hc

/-- Witness for C6: cascading delete of root 1 in `wdb` removes 1 and its child
2, keeps root 3, and removes the (empty) BOM history set of the subtree. -/
theorem C6_delete_semantics_witness :
    (findAsset wdb 1 = none →
       delete_asset wdb 1 true = .error (.notFound "Asset not found")) ∧
    ((∃ a, findAsset wdb 1 = some a) → true = false → childrenOf wdb.assets 1 ≠ [] →
       delete_asset wdb 1 true =
         .error (.invalidOperation "Asset has children. Use cascade=true to delete all children.")) ∧
    ((∃ a, findAsset wdb 1 = some a) → (true = true ∨ childrenOf wdb.assets 1 = []) →
       ∃ db2, delete_asset wdb 1 true = .ok db2 ∧
         (∀ x : Asset, x ∈ db2.assets ↔ x ∈ wdb.assets ∧ ¬ DescSelf wdb.assets 1 x.id) ∧
         (∀ b : BOMHistoryRec, b ∈ db2.boms ↔
            b ∈ wdb.boms ∧ ¬ DescSelf wdb.assets 1 b.asset_id)) ∧
    (childrenOf wdb.assets 1 = [] → ∀ x, DescSelf wdb.assets 1 x → x = 1) :=
  C6_delete_semantics wdb 1 true (by unfold NodupIds; decide)
    (acyclic_of_ranked wdb.assets (fun n => n) (by unfold rankedB; decide))

/-! ## Claim C7: UploadBOM failure modes -/

/-- C7 (as stated) is wrong about `ParseError`: uploading a structurally
unrecognizable document — no components array under `components`, `packages` or
`items` — to a leaf asset does not fail at all; the code persists a snapshot
with `bom_format = "custom"` and zero components.  (The embedding's error type
does not even need a ParseError constructor: the only parse failures the code
raises are for non-`.json` filenames and undecodable JSON, both HTTP 400,
upstream of the document model.) -/
theorem C7_counterexample :
    uploadOutcome wleaf 1 [("foo", .str "bar")] "v1" "SBOM" "Manual Upload" 5 50 =
      some (0, 0, 0, 0, 1) := by
  decide

/-- C7 (amended): UploadBOM fails with `InvalidOperation` whenever the target
asset has a child, persisting nothing (the error raises before the snapshot is
created); but when no components array is found in any known location the
upload succeeds anyway, persisting a snapshot with zero components and no
items. -/
theorem C7_amended_upload_behaviour (db : DB) (aid : Nat) (doc : JDoc)
    (v bt src : String) (now bid : Nat) :
    ((∃ a, findAsset db aid = some a) → childrenOf db.assets aid ≠ [] →
      upload_bom db aid doc v bt src now bid =
        .error (.invalidOperation
          "BOMs can only be uploaded for leaf-level assets. This asset has child assets.")) ∧
    ((∃ a, findAsset db aid = some a) → childrenOf db.assets aid = [] →
      jget doc "components" = none → jget doc "packages" = none → jget doc "items" = none →
      ∃ snap, upload_bom db aid doc v bt src now bid =
          .ok ({ db with boms := db.boms ++ [snap] }, snap) ∧
        snap.total_components = 0 ∧ snap.bom_items = []) := by
  constructor
  · rintro ⟨a, ha⟩ hne
    unfold upload_bom
    rw [ha, if_pos hne]
  · rintro ⟨a, ha⟩ hemp hc hp hi
    have hnot : ¬ (childrenOf db.assets aid ≠ []) := fun hne => hne hemp
    unfold upload_bom
    rw [ha, if_neg hnot]
    simp only [jgetArrD, hc, hp, hi, Option.isSome_none]
    by_cases h1 : (jget doc "bomFormat").isSome = true ∧ (jget doc "specVersion").isSome = true
    · rw [if_pos h1]
      exact ⟨_, rfl, rfl, rfl⟩
    · rw [if_neg h1]
      by_cases h2 : (jget doc "spdxVersion").isSome = true
      · rw [if_pos h2]
        exact ⟨_, rfl, rfl, rfl⟩
      · rw [if_neg h2]
        exact ⟨_, rfl, rfl, rfl⟩

/-- Witness for the amended C7: part (a) at `wdb` (asset 1 has child 2), and
part (b) exercised by applying the theorem at `wleaf` with an unrecognizable
document. -/
theorem C7_amended_upload_behaviour_witness :
    (upload_bom wdb 1 [("foo", .str "bar")] "v1" "SBOM" "src" 5 50 =
       .error (.invalidOperation
         "BOMs can only be uploaded for leaf-level assets. This asset has child assets.")) ∧
    (∃ snap, upload_bom wleaf 1 [("foo", .str "bar")] "v1" "SBOM" "src" 5 50 =
        .ok ({ wleaf with boms := wleaf.boms ++ [snap] }, snap) ∧
      snap.total_components = 0 ∧ snap.bom_items = []) :=
  ⟨(C7_amended_upload_behaviour wdb 1 [("foo", .str "bar")] "v1" "SBOM" "src" 5 50).1
     ⟨mkAsset 1 "A" none, by decide⟩ (by decide),
   (C7_amended_upload_behaviour wleaf 1 [("foo", .str "bar")] "v1" "SBOM" "src" 5 50).2
     ⟨mkAsset 1 "A" none, by decide⟩ (by decide) rfl rfl rfl⟩

/-! ## Claim C3: deep Copy.  Infrastructure about subtrees and shapes. -/

theorem subtreeMem_lt {l : List Asset} {fresh : Nat} (hlt : ∀ a ∈ l, a.id < fresh)
    {r k : Nat} (hr : r < fresh) (h : SubtreeMem l r k) : k < fresh := by
  induction h with
  | refl => exact hr
  | tail _ hstep ih =>
    obtain ⟨a, ha, haid, _⟩ := hstep
    rw [← haid]
    exact hlt a ha

theorem subtreeMem_append {l extra : List Asset} {r : Nat}
    (hext : ∀ e ∈ extra, ∀ p, e.parent_id = some p → ¬ SubtreeMem l r p) :
    ∀ {k}, SubtreeMem (l ++ extra) r k → SubtreeMem l r k := by
  intro k h
  induction h with
  | refl => exact Relation.ReflTransGen.refl
  | tail _ hstep ih =>
    obtain ⟨a, ha, haid, hap⟩ := hstep
    rcases List.mem_append.mp ha with hal | hae
    · exact ih.tail ⟨a, hal, haid, hap⟩
    · exact absurd ih (hext a hae _ hap)

theorem subtreeMem_child {l : List Asset} {r c k : Nat} (hstep : memStep l r c)
    (h : SubtreeMem l c k) : SubtreeMem l r k :=
  Relation.ReflTransGen.head hstep h

theorem childrenOf_append (l extra : List Asset) (i : Nat) :
    childrenOf (l ++ extra) i = childrenOf l i ++ childrenOf extra i :=
  List.filter_append ..

theorem nameTaken_append (l extra : List Asset) (pid : Option Nat) (nm : String) :
    nameTaken (l ++ extra) pid nm = (nameTaken l pid nm || nameTaken extra pid nm) :=
  List.any_append

theorem childrenOf_eq_nil {l : List Asset} {i : Nat}
    (h : ∀ a ∈ l, a.parent_id ≠ some i) : childrenOf l i = [] := by
  apply List.filter_eq_nil_iff.mpr
  intro a ha
  simp [h a ha]

theorem resolveCopyName_free {assets : List Asset} {pid : Option Nat} {nm : String}
    (h : nameTaken assets pid nm = false) : resolveCopyName assets pid nm = some nm := by
  unfold resolveCopyName
  rw [if_neg]
  rw [h]
  simp

theorem shapeOf_append {l extra : List Asset} (S : Nat → Prop)
    (hclosed : ∀ a ∈ l, ∀ p, a.parent_id = some p → S p → S a.id)
    (hext : ∀ e ∈ extra, ∀ p, e.parent_id = some p → ¬ S p) :
    ∀ (f : Nat) {x : Nat}, S x → shapeOf (l ++ extra) f x = shapeOf l f x := by
  intro f
  induction f with
  | zero => intro x _; rfl
  | succ f ih =>
    intro x hx
    show STree.node _ = STree.node _
    have hch : childrenOf (l ++ extra) x = childrenOf l x := by
      rw [childrenOf_append]
      have hnil : childrenOf extra x = [] := by
        apply childrenOf_eq_nil
        intro e he hpe
        exact hext e he x hpe hx
      rw [hnil, List.append_nil]
    rw [hch]
    congr 1
    apply List.map_congr_left
    intro c hc
    have hcmem := List.mem_filter.mp hc
    have hcp : c.parent_id = some x := by simpa using hcmem.2
    exact ih (hclosed c hcmem.1 x hcp hx)

theorem deep_copy_children_spec (fuel : Nat)
    (IH : ∀ (db : DB) (asset : Asset) (npid : Option Nat) (fresh : Nat) (suffix : String)
        (db' : DB) (rootId fresh' : Nat),
      deep_copy_asset fuel db asset npid fresh suffix = some (db', rootId, fresh') →
      (∀ a ∈ db.assets, a.id < fresh ∧ ∀ p ∈ a.parent_id, p < fresh) →
      asset ∈ db.assets →
      (∀ x, npid = some x → x < fresh) →
      (∀ x, npid = some x → ¬ SubtreeMem db.assets asset.id x) →
      ∃ cname urn rest,
        resolveCopyName db.assets npid
          (if npid = asset.parent_id then asset.name ++ suffix else asset.name) = some cname ∧
        db'.types = db.types ∧ db'.boms = db.boms ∧
        db'.assets = db.assets ++ copyRecord asset npid fresh cname urn :: rest ∧
        rootId = fresh ∧ fresh < fresh' ∧
        (∀ e ∈ rest, fresh < e.id ∧ e.id < fresh' ∧
          ∃ p, e.parent_id = some p ∧ fresh ≤ p ∧ p < e.id) ∧
        (∀ f, shapeOf db'.assets f fresh = shapeOf db.assets f asset.id) ∧
        ((childrenOf db.assets asset.id).Pairwise (fun x y => x.name ≠ y.name) →
          (childrenOf db'.assets fresh).map (fun c => c.name) =
            (childrenOf db.assets asset.id).map (fun c => c.name))) :
    ∀ (cs : List Asset) (db : DB) (pid fresh : Nat) (dbf : DB) (freshf : Nat),
      deep_copy_children fuel db cs pid fresh = some (dbf, freshf) →
      (∀ a ∈ db.assets, a.id < fresh ∧ ∀ p ∈ a.parent_id, p < fresh) →
      pid < fresh →
      (∀ c ∈ cs, c ∈ db.assets) →
      (∀ c ∈ cs, ¬ SubtreeMem db.assets c.id pid) →
      ∃ extra,
        dbf.types = db.types ∧ dbf.boms = db.boms ∧
        dbf.assets = db.assets ++ extra ∧
        fresh ≤ freshf ∧
        (∀ e ∈ extra, fresh ≤ e.id ∧ e.id < freshf ∧
          (e.parent_id = some pid ∨ ∃ p, e.parent_id = some p ∧ fresh ≤ p ∧ p < e.id)) ∧
        (∀ f, (childrenOf extra pid).map (fun e => shapeOf dbf.assets f e.id) =
          cs.map (fun c => shapeOf db.assets f c.id)) ∧
        (cs.Pairwise (fun x y => x.name ≠ y.name) →
          (∀ c ∈ cs, nameTaken db.assets (some pid) c.name = false) →
          (childrenOf extra pid).map (fun e => e.name) = cs.map (fun c => c.name)) := by
  intro cs
  induction cs with
  | nil =>
    intro db pid fresh dbf freshf h hlt hpid hcs hnp
    simp only [deep_copy_children, deep_copy_childrenF] at h
    have hdb : db = dbf := congrArg Prod.fst (Option.some.inj h)
    have hfr : fresh = freshf := congrArg Prod.snd (Option.some.inj h)
    subst hdb
    subst hfr
    refine ⟨[], rfl, rfl, (List.append_nil _).symm, le_refl _, by simp, ?_, ?_⟩
    · intro f
      rfl
    · intro _ _
      rfl
  | cons c cs' ihcs =>
    intro db pid fresh dbf freshf h hlt hpid hcs hnp
    simp only [deep_copy_children, deep_copy_childrenF] at h
    cases hcall : deep_copy_asset fuel db c (some pid) fresh "" with
    | none => rw [hcall] at h; exact absurd h (by simp)
    | some out =>
      obtain ⟨dbm, rootC, freshm⟩ := out
      rw [hcall] at h
      have h3 : deep_copy_children fuel dbm cs' pid freshm = some (dbf, freshf) := h
      have hcmem : c ∈ db.assets := hcs c (List.mem_cons_self c cs')
      obtain ⟨cname, urn, rest, hres, htypes1, hboms1, hassets1, hrootC, hlt1, hrest,
        hshape1, _⟩ :=
        IH db c (some pid) fresh "" dbm rootC freshm hcall hlt hcmem
          (fun x hx => by injection hx with he; rw [← he]; exact hpid)
          (fun x hx => by injection hx with he; rw [← he]; exact hnp c (List.mem_cons_self c cs'))
      -- invariants for the recursive loop on cs'
      have hlt2 : ∀ a ∈ dbm.assets, a.id < freshm ∧ ∀ p ∈ a.parent_id, p < freshm := by
        intro a ha
        rw [hassets1] at ha
        rcases List.mem_append.mp ha with hold | hnew
        · obtain ⟨h1, h2⟩ := hlt a hold
          exact ⟨by omega, fun p hp => by have := h2 p hp; omega⟩
        · rcases List.mem_cons.mp hnew with hroot | hrest2
          · subst hroot
            refine ⟨by show fresh < freshm; omega, ?_⟩
            intro p hp
            have hp2 : some pid = some p := hp
            injection hp2 with he
            omega
          · obtain ⟨hgt, hltm, p, hpe, hple, hplt⟩ := hrest a hrest2
            exact ⟨hltm, fun q hq => by rw [hpe] at hq; injection hq with he; omega⟩
      have hcs2 : ∀ x ∈ cs', x ∈ dbm.assets := by
        intro x hx
        rw [hassets1]
        exact List.mem_append_left _ (hcs x (List.mem_cons_of_mem c hx))
      have hclt : ∀ x ∈ cs', x.id < fresh := by
        intro x hx
        exact (hlt x (hcs x (List.mem_cons_of_mem c hx))).1
      have hextOld : ∀ x ∈ cs',
          ∀ e ∈ copyRecord c (some pid) fresh cname urn :: rest,
            ∀ p, e.parent_id = some p → ¬ SubtreeMem db.assets x.id p := by
        intro x hx e he p hp hsub
        rcases List.mem_cons.mp he with hroot | hrest2
        · subst hroot
          have hp2 : some pid = some p := hp
          injection hp2 with he2
          rw [← he2] at hsub
          exact hnp x (List.mem_cons_of_mem c hx) hsub
        · obtain ⟨hgt, hltm, q, hqe, hqle, hqlt⟩ := hrest e hrest2
          rw [hqe] at hp
          injection hp with he2
          have hpk : p < fresh :=
            subtreeMem_lt (fun a ha => (hlt a ha).1) (hclt x hx) hsub
          omega
      have hnp2 : ∀ x ∈ cs', ¬ SubtreeMem dbm.assets x.id pid := by
        intro x hx hsub
        rw [hassets1] at hsub
        exact hnp x (List.mem_cons_of_mem c hx) (subtreeMem_append (hextOld x hx) hsub)
      obtain ⟨extraR, htypes2, hboms2, hassets2, hle2, hextraR, hshape2, hnames2⟩ :=
        ihcs dbm pid freshm dbf freshf h3 hlt2 (by omega) hcs2 hnp2
      -- the new children of pid contributed by the head call
      have hchildHead : childrenOf (copyRecord c (some pid) fresh cname urn :: rest) pid =
          [copyRecord c (some pid) fresh cname urn] := by
        unfold childrenOf
        rw [List.filter_cons_of_pos (by simp [copyRecord])]
        have : rest.filter (fun a => a.parent_id = some pid) = [] := by
          apply List.filter_eq_nil_iff.mpr
          intro e he
          obtain ⟨hgt, hltm, p, hpe, hple, hplt⟩ := hrest e he
          simp only [hpe, decide_eq_true_eq]
          intro hcontra
          injection hcontra with he2
          omega
        rw [this]
      refine ⟨(copyRecord c (some pid) fresh cname urn :: rest) ++ extraR,
        htypes2.trans htypes1, hboms2.trans hboms1, ?_, by omega, ?_, ?_, ?_⟩
      · rw [hassets2, hassets1, List.append_assoc]
      · intro e he
        rcases List.mem_append.mp he with hnew | hR
        · rcases List.mem_cons.mp hnew with hroot | hrest2
          · subst hroot
            have hRid : (copyRecord c (some pid) fresh cname urn).id = fresh := rfl
            refine ⟨by rw [hRid], by rw [hRid]; omega, Or.inl rfl⟩
          · obtain ⟨hgt, hltm, p, hpe, hple, hplt⟩ := hrest e hrest2
            exact ⟨by omega, by omega, Or.inr ⟨p, hpe, hple, hplt⟩⟩
        · obtain ⟨h1, h2, h3'⟩ := hextraR e hR
          refine ⟨by omega, h2, ?_⟩
          rcases h3' with hl | ⟨p, hp1, hp2, hp3⟩
          · exact Or.inl hl
          · exact Or.inr ⟨p, hp1, by omega, hp3⟩
      · intro f
        rw [childrenOf_append, hchildHead, List.map_append]
        have hhead : shapeOf dbf.assets f fresh = shapeOf db.assets f c.id := by
          have hstep1 : shapeOf dbf.assets f fresh = shapeOf dbm.assets f fresh := by
            rw [hassets2]
            apply shapeOf_append (fun k => fresh ≤ k ∧ k < freshm)
            · intro a ha p hp hS
              rw [hassets1] at ha
              rcases List.mem_append.mp ha with hold | hnew
              · have := (hlt a hold).2 p hp
                omega
              · rcases List.mem_cons.mp hnew with hroot | hrest2
                · subst hroot
                  have hp2 : some pid = some p := hp
                  injection hp2 with he2
                  omega
                · obtain ⟨hgt, hltm, q, hqe, hqle, hqlt⟩ := hrest a hrest2
                  rw [hqe] at hp
                  injection hp with he2
                  constructor
                  · omega
                  · exact hltm
            · intro e he p hp hS
              obtain ⟨h1, h2, h3'⟩ := hextraR e he
              rcases h3' with hl | ⟨q, hq1, hq2, hq3⟩
              · rw [hl] at hp
                injection hp with he2
                omega
              · rw [hq1] at hp
                injection hp with he2
                omega
            · exact ⟨le_refl _, by omega⟩
          rw [hstep1]
          exact hshape1 f
        have htail : (childrenOf extraR pid).map (fun e => shapeOf dbf.assets f e.id) =
            cs'.map (fun x => shapeOf db.assets f x.id) := by
          rw [hshape2 f]
          apply List.map_congr_left
          intro x hx
          rw [hassets1]
          apply shapeOf_append (SubtreeMem db.assets x.id)
          · intro a ha p hp hS
            exact hS.tail ⟨a, ha, rfl, hp⟩
          · intro e he p hp
            exact hextOld x hx e he p hp
          · exact Relation.ReflTransGen.refl
        have hhead2 : shapeOf dbf.assets f (copyRecord c (some pid) fresh cname urn).id =
            shapeOf db.assets f c.id := hhead
        show shapeOf dbf.assets f (copyRecord c (some pid) fresh cname urn).id ::
            (childrenOf extraR pid).map (fun e => shapeOf dbf.assets f e.id) =
          shapeOf db.assets f c.id :: cs'.map (fun x => shapeOf db.assets f x.id)
        rw [hhead2, htail]
      · intro hpw hnocol
        have hcons := List.pairwise_cons.mp hpw
        have hcnametaken : nameTaken db.assets (some pid) c.name = false :=
          hnocol c (List.mem_cons_self c cs')
        have hcname : cname = c.name := by
          have harg : (if (some pid : Option Nat) = c.parent_id then c.name ++ "" else c.name) =
              c.name := by
            by_cases hcase : (some pid : Option Nat) = c.parent_id
            · rw [if_pos hcase]
              exact String.append_empty c.name
            · rw [if_neg hcase]
          rw [harg] at hres
          rw [resolveCopyName_free hcnametaken] at hres
          exact (Option.some.inj hres).symm
        have hnocol2 : ∀ x ∈ cs', nameTaken dbm.assets (some pid) x.name = false := by
          intro x hx
          rw [hassets1, nameTaken_append]
          rw [hnocol x (List.mem_cons_of_mem c hx)]
          have hnew : nameTaken (copyRecord c (some pid) fresh cname urn :: rest)
              (some pid) x.name = false := by
            apply List.any_eq_false.mpr
            intro e he
            rcases List.mem_cons.mp he with hroot | hrest2
            · subst hroot
              have hpredname : (copyRecord c (some pid) fresh cname urn).name = c.name := by
                show cname = c.name
                exact hcname
              simp only [Bool.and_eq_true, decide_eq_true_eq, not_and]
              intro _
              rw [hpredname]
              exact hcons.1 x hx
            · obtain ⟨hgt, hltm, p, hpe, hple, hplt⟩ := hrest e hrest2
              simp only [hpe, Bool.and_eq_true, decide_eq_true_eq, not_and]
              intro hcontra
              injection hcontra with he2
              omega
          rw [hnew]
          rfl
        have htailn := hnames2 hcons.2 hnocol2
        rw [childrenOf_append, hchildHead, List.map_append, htailn, hcname]
        rfl

theorem deep_copy_asset_spec :
    ∀ (fuel : Nat) (db : DB) (asset : Asset) (npid : Option Nat) (fresh : Nat) (suffix : String)
      (db' : DB) (rootId fresh' : Nat),
      deep_copy_asset fuel db asset npid fresh suffix = some (db', rootId, fresh') →
      (∀ a ∈ db.assets, a.id < fresh ∧ ∀ p ∈ a.parent_id, p < fresh) →
      asset ∈ db.assets →
      (∀ x, npid = some x → x < fresh) →
      (∀ x, npid = some x → ¬ SubtreeMem db.assets asset.id x) →
      ∃ cname urn rest,
        resolveCopyName db.assets npid
          (if npid = asset.parent_id then asset.name ++ suffix else asset.name) = some cname ∧
        db'.types = db.types ∧ db'.boms = db.boms ∧
        db'.assets = db.assets ++ copyRecord asset npid fresh cname urn :: rest ∧
        rootId = fresh ∧ fresh < fresh' ∧
        (∀ e ∈ rest, fresh < e.id ∧ e.id < fresh' ∧
          ∃ p, e.parent_id = some p ∧ fresh ≤ p ∧ p < e.id) ∧
        (∀ f, shapeOf db'.assets f fresh = shapeOf db.assets f asset.id) ∧
        ((childrenOf db.assets asset.id).Pairwise (fun x y => x.name ≠ y.name) →
          (childrenOf db'.assets fresh).map (fun c => c.name) =
            (childrenOf db.assets asset.id).map (fun c => c.name)) := by
  intro fuel
  induction fuel with
  | zero =>
    intro db asset npid fresh suffix db' rootId fresh' h _ _ _ _
    simp [deep_copy_asset] at h
  | succ fuel ihf =>
    intro db asset npid fresh suffix db' rootId fresh' h hlt hmem hlow hnpd
    simp only [deep_copy_asset] at h
    cases hres : resolveCopyName db.assets npid
        (if npid = asset.parent_id then asset.name ++ suffix else asset.name) with
    | none => rw [hres] at h; exact absurd h (by simp)
    | some cname =>
      rw [hres] at h
      have h2 : (match deep_copy_children fuel
          { db with assets := db.assets ++
              [copyRecord asset npid fresh cname
                (if db.assets.any (fun a =>
                    a.urn = generate_urn db.types asset.asset_type_id cname) then
                  generate_urn db.types asset.asset_type_id cname ++ "-" ++ toString fresh
                else generate_urn db.types asset.asset_type_id cname)] }
          (childrenOf (db.assets ++
              [copyRecord asset npid fresh cname
                (if db.assets.any (fun a =>
                    a.urn = generate_urn db.types asset.asset_type_id cname) then
                  generate_urn db.types asset.asset_type_id cname ++ "-" ++ toString fresh
                else generate_urn db.types asset.asset_type_id cname)]) asset.id)
          fresh (fresh + 1) with
        | none => none
        | some (db2, fresh2) => some (db2, fresh, fresh2)) = some (db', rootId, fresh') := h
      set urnE : String :=
        (if db.assets.any (fun a =>
            a.urn = generate_urn db.types asset.asset_type_id cname) then
          generate_urn db.types asset.asset_type_id cname ++ "-" ++ toString fresh
        else generate_urn db.types asset.asset_type_id cname) with hurnE
      set R : Asset := copyRecord asset npid fresh cname urnE with hRdef
      cases hloop : deep_copy_children fuel { db with assets := db.assets ++ [R] }
          (childrenOf (db.assets ++ [R]) asset.id) fresh (fresh + 1) with
      | none => rw [hloop] at h2; exact absurd h2 (by simp)
      | some pr =>
        obtain ⟨db2, fresh2⟩ := pr
        rw [hloop] at h2
        have h4 : (some (db2, fresh, fresh2) : Option (DB × Nat × Nat)) =
            some (db', rootId, fresh') := h2
        have h5 := Option.some.inj h4
        have hdb2 : db2 = db' := congrArg Prod.fst h5
        have hroot : fresh = rootId := congrArg (fun pr3 => pr3.2.1) h5
        have hfresh2 : fresh2 = fresh' := congrArg (fun pr3 => pr3.2.2) h5
        subst hdb2
        subst hfresh2
        -- invariants for the children loop
        have hRid : R.id = fresh := rfl
        have hRparent : R.parent_id = npid := rfl
        have hlt1 : ∀ a ∈ ({ db with assets := db.assets ++ [R] } : DB).assets,
            a.id < fresh + 1 ∧ ∀ p ∈ a.parent_id, p < fresh + 1 := by
          intro a ha
          rcases List.mem_append.mp ha with hold | hnew
          · obtain ⟨h1, hps⟩ := hlt a hold
            exact ⟨by omega, fun p hp => by have := hps p hp; omega⟩
          · rw [List.mem_singleton] at hnew
            subst hnew
            refine ⟨by rw [hRid]; omega, ?_⟩
            intro p hp
            rw [hRparent] at hp
            have := hlow p hp
            omega
        have hchildOrig : childrenOf (db.assets ++ [R]) asset.id =
            childrenOf db.assets asset.id := by
          rw [childrenOf_append]
          have : childrenOf [R] asset.id = [] := by
            apply childrenOf_eq_nil
            intro e he hpe
            rw [List.mem_singleton] at he
            subst he
            rw [hRparent] at hpe
            exact hnpd asset.id hpe Relation.ReflTransGen.refl
          rw [this, List.append_nil]
        have hRnotSub : ∀ c ∈ childrenOf db.assets asset.id,
            ∀ p, R.parent_id = some p → ¬ SubtreeMem db.assets c.id p := by
          intro c hc p hp hsub
          rw [hRparent] at hp
          have hcmem := List.mem_filter.mp hc
          have hcp : c.parent_id = some asset.id := by simpa using hcmem.2
          exact hnpd p hp (subtreeMem_child ⟨c, hcmem.1, rfl, hcp⟩ hsub)
        have hcs1 : ∀ c ∈ childrenOf (db.assets ++ [R]) asset.id,
            c ∈ ({ db with assets := db.assets ++ [R] } : DB).assets := by
          intro c hc
          exact (List.mem_filter.mp hc).1
        have hnp1 : ∀ c ∈ childrenOf (db.assets ++ [R]) asset.id,
            ¬ SubtreeMem ({ db with assets := db.assets ++ [R] } : DB).assets c.id fresh := by
          rw [hchildOrig]
          intro c hc hsub
          have hcmem := List.mem_filter.mp hc
          have hclt : c.id < fresh := (hlt c hcmem.1).1
          have hsub2 : SubtreeMem db.assets c.id fresh := by
            apply subtreeMem_append ?_ hsub
            intro e he p hp
            rw [List.mem_singleton] at he
            subst he
            exact hRnotSub c hc p hp
          have := subtreeMem_lt (fun a ha => (hlt a ha).1) hclt hsub2
          omega
        obtain ⟨extra, htypes2, hboms2, hassets2, hle2, hextra, hshape2, hnames2⟩ :=
          deep_copy_children_spec fuel ihf (childrenOf (db.assets ++ [R]) asset.id)
            { db with assets := db.assets ++ [R] } fresh (fresh + 1) db2 fresh2 hloop
            hlt1 (by omega) hcs1 hnp1
        have hassets' : db2.assets = db.assets ++ R :: extra := by
          rw [hassets2]
          show (db.assets ++ [R]) ++ extra = db.assets ++ R :: extra
          rw [List.append_assoc]
          rfl
        have hnoFreshChild : childrenOf (db.assets ++ [R]) fresh = [] := by
          apply childrenOf_eq_nil
          intro e he hpe
          rcases List.mem_append.mp he with hold | hnew
          · have := (hlt e hold).2 fresh (by rw [hpe]; rfl)
            omega
          · rw [List.mem_singleton] at hnew
            subst hnew
            rw [hRparent] at hpe
            have := hlow fresh hpe
            omega
        have hchildFinal : childrenOf db2.assets fresh = childrenOf extra fresh := by
          rw [hassets2]
          show childrenOf ((db.assets ++ [R]) ++ extra) fresh = childrenOf extra fresh
          rw [childrenOf_append, hnoFreshChild]
          rfl
        refine ⟨cname, urnE, extra, rfl, htypes2, hboms2, hassets', hroot.symm, by omega,
          ?_, ?_, ?_⟩
        · intro e he
          obtain ⟨h1, h2', h3'⟩ := hextra e he
          refine ⟨by omega, by omega, ?_⟩
          rcases h3' with hl | ⟨p, hp1, hp2, hp3⟩
          · exact ⟨fresh, hl, le_refl _, by omega⟩
          · exact ⟨p, hp1, by omega, hp3⟩
        · intro f
          cases f with
          | zero => rfl
          | succ f =>
            show STree.node _ = STree.node _
            congr 1
            rw [hchildFinal]
            have hmap1 := hshape2 f
            rw [hchildOrig] at hmap1
            rw [hmap1]
            apply List.map_congr_left
            intro c hc
            have hcmem := List.mem_filter.mp hc
            show shapeOf (db.assets ++ [R]) f c.id = shapeOf db.assets f c.id
            apply shapeOf_append (SubtreeMem db.assets c.id)
            · intro a ha p hp hS
              exact hS.tail ⟨a, ha, rfl, hp⟩
            · intro e he p hp
              rw [List.mem_singleton] at he
              subst he
              exact hRnotSub c hc p hp
            · exact Relation.ReflTransGen.refl
        · intro hpw
          rw [hchildFinal]
          have hnocol1 : ∀ c ∈ childrenOf (db.assets ++ [R]) asset.id,
              nameTaken ({ db with assets := db.assets ++ [R] } : DB).assets
                (some fresh) c.name = false := by
            intro c _
            apply List.any_eq_false.mpr
            intro e he
            rcases List.mem_append.mp he with hold | hnew
            · simp only [Bool.and_eq_true, decide_eq_true_eq, not_and]
              intro hpe _
              have := (hlt e hold).2 fresh (by rw [hpe]; rfl)
              omega
            · rw [List.mem_singleton] at hnew
              subst hnew
              simp only [Bool.and_eq_true, decide_eq_true_eq, not_and]
              intro hpe _
              rw [hRparent] at hpe
              have := hlow fresh hpe
              omega
          have := hnames2 (by rw [hchildOrig]; exact hpw) hnocol1
          rw [hchildOrig] at this
          exact this

/-- Child reachability through explicit rows implies the ancestor-chain
relation decided by `is_descendant`: with distinct row ids, every `memStep`
from `x` to `y` is an `ancStep` from `y` back to `x`. -/
theorem descSelf_of_subtreeMem {l : List Asset} (hnd : NodupIds l) {r k : Nat}
    (h : SubtreeMem l r k) : DescSelf l r k := by
  induction h with
  | refl => exact Relation.ReflTransGen.refl
  | tail _h hstep ih =>
    obtain ⟨a, ha, hid, hpid⟩ := hstep
    subst hid
    exact Relation.ReflTransGen.head (ancStep_of_mem hnd ha hpid) ih

/-- C3: in a well-formed store (distinct ids, acyclic, all ids and BOM owners
below the fresh counter) a successful Copy produces a fresh subtree whose shape
equals the source subtree's shape at every depth (hence the same node count);
the root's name is the source name with " (Copy)" appended exactly when the
destination parent equals the source's current parent, then made unique among
the destination's children by the incrementing-integer probe (`resolveCopyName`);
the new root carries `parent_id = new_parent_id` and a reset `external_id`;
direct children keep their original names; and every node of the new subtree
has zero BOM snapshots immediately after the copy. -/
theorem C3_copy_isomorphism (db : DB) (asset_id : Nat) (npid : Option Nat) (fresh : Nat)
    (db' : DB) (rootId : Nat)
    (hnd : NodupIds db.assets) (hacy : Acyclic db.assets)
    (hfa : ∀ a ∈ db.assets, a.id < fresh ∧ ∀ p ∈ a.parent_id, p < fresh)
    (hfb : ∀ b ∈ db.boms, b.asset_id < fresh)
    (hok : copy_asset db asset_id npid fresh = .ok (db', rootId)) :
    ∃ asset cname urn rest,
      findAsset db asset_id = some asset ∧
      resolveCopyName db.assets npid
        (if npid = asset.parent_id then asset.name ++ " (Copy)" else asset.name) =
          some cname ∧
      rootId = fresh ∧
      db'.types = db.types ∧
      db'.boms = db.boms ∧
      db'.assets = db.assets ++ copyRecord asset npid fresh cname urn :: rest ∧
      (copyRecord asset npid fresh cname urn).name = cname ∧
      (copyRecord asset npid fresh cname urn).parent_id = npid ∧
      (copyRecord asset npid fresh cname urn).external_id = none ∧
      (∀ f, shapeOf db'.assets f rootId = shapeOf db.assets f asset_id) ∧
      (∀ f, (shapeOf db'.assets f rootId).size = (shapeOf db.assets f asset_id).size) ∧
      (NamesUnique db.assets →
        (childrenOf db'.assets rootId).map (fun c => c.name) =
          (childrenOf db.assets asset_id).map (fun c => c.name)) ∧
      (∀ e ∈ copyRecord asset npid fresh cname urn :: rest,
        fresh ≤ e.id ∧ db'.boms.filter (fun b => b.asset_id = e.id) = []) := by
  unfold copy_asset at hok
  cases hfind : findAsset db asset_id with
  | none => rw [hfind] at hok; exact absurd hok (by simp)
  | some asset =>
    rw [hfind] at hok
    replace hok : (match parentGuard db asset_id npid
          "Cannot copy an asset to its own descendant" with
        | .error e => (.error e : Except ApiError (DB × Nat))
        | .ok _ =>
          match deep_copy_asset (db.assets.length + 1) db asset npid fresh " (Copy)" with
          | none => .error (.invalidOperation
              "recursion fuel exhausted (unreachable in acyclic stores)")
          | some (db1, rId, _) => .ok (db1, rId)) = .ok (db', rootId) := hok
    cases hpg : parentGuard db asset_id npid "Cannot copy an asset to its own descendant" with
    | error e => rw [hpg] at hok; exact absurd hok (by simp)
    | ok u =>
      rw [hpg] at hok
      replace hok : (match deep_copy_asset (db.assets.length + 1) db asset npid fresh
            " (Copy)" with
          | none => (.error (.invalidOperation
              "recursion fuel exhausted (unreachable in acyclic stores)") :
                Except ApiError (DB × Nat))
          | some (db1, rId, _) => .ok (db1, rId)) = .ok (db', rootId) := hok
      cases hdca : deep_copy_asset (db.assets.length + 1) db asset npid fresh " (Copy)" with
      | none => rw [hdca] at hok; exact absurd hok (by simp)
      | some out =>
        obtain ⟨dbx, rootx, freshx⟩ := out
        rw [hdca] at hok
        have hok2 : (Except.ok (dbx, rootx) : Except ApiError (DB × Nat)) =
            .ok (db', rootId) := hok
        have hpr := Except.ok.inj hok2
        have hdbx : dbx = db' := congrArg Prod.fst hpr
        have hrootx : rootx = rootId := congrArg Prod.snd hpr
        rw [hdbx, hrootx] at hdca
        have hmem : asset ∈ db.assets := findAsset_mem hfind
        have haid : asset.id = asset_id := findAsset_id hfind
        have hlow : ∀ x, npid = some x → x < fresh := by
          intro x hx
          obtain ⟨hsome, _⟩ := parentGuard_ok_inv hpg x hx
          obtain ⟨pa, hpa⟩ := Option.isSome_iff_exists.mp hsome
          have := (hfa pa (findAsset_mem hpa)).1
          rw [findAsset_id hpa] at this
          exact this
        have hnpd : ∀ x, npid = some x → ¬ SubtreeMem db.assets asset.id x := by
          intro x hx hsub
          obtain ⟨_, hdesc⟩ := parentGuard_ok_inv hpg x hx
          have hds : DescSelf db.assets asset.id x := descSelf_of_subtreeMem hnd hsub
          rw [haid] at hds
          have ht : asset_id ∈ db.assets.map (fun a => a.id) :=
            List.mem_map.mpr ⟨asset, hmem, haid⟩
          exact (is_descendant_false_iff hnd hacy ht x).mp hdesc hds
        obtain ⟨cname, urn, rest, hres, htypes, hboms, hassets, hroot, hflt, hrest,
            hshape, hnames⟩ :=
          deep_copy_asset_spec (db.assets.length + 1) db asset npid fresh " (Copy)"
            db' rootId freshx hdca hfa hmem hlow hnpd
        refine ⟨asset, cname, urn, rest, rfl, hres, hroot, htypes, hboms, hassets,
          rfl, rfl, rfl, ?_, ?_, ?_, ?_⟩
        · intro f
          rw [hroot, ← haid]
          exact hshape f
        · intro f
          rw [hroot, ← haid]
          exact congrArg STree.size (hshape f)
        · intro hnu
          have hpw : (childrenOf db.assets asset.id).Pairwise
              (fun x y => x.name ≠ y.name) := by
            have h1 : (childrenOf db.assets asset.id).Pairwise
                (fun a b => ¬ (a.name = b.name ∧ a.parent_id = b.parent_id)) :=
              hnu.sublist (List.filter_sublist _)
            refine List.Pairwise.imp_of_mem ?_ h1
            intro x y hx hy hR hname
            apply hR
            refine ⟨hname, ?_⟩
            have hxp : x.parent_id = some asset.id := by
              simpa using (List.mem_filter.mp hx).2
            have hyp : y.parent_id = some asset.id := by
              simpa using (List.mem_filter.mp hy).2
            rw [hxp, hyp]
          rw [hroot, ← haid]
          exact hnames hpw
        · intro e he
          have hid0 : (copyRecord asset npid fresh cname urn).id = fresh := rfl
          rcases List.mem_cons.mp he with hhead | htail
          · subst hhead
            refine ⟨le_of_eq hid0.symm, ?_⟩
            rw [hboms]
            apply List.filter_eq_nil_iff.mpr
            intro b hb
            simp only [decide_eq_true_eq]
            have := hfb b hb
            rw [hid0]
            omega
          · obtain ⟨h1, _, _⟩ := hrest e htail
            refine ⟨by omega, ?_⟩
            rw [hboms]
            apply List.filter_eq_nil_iff.mpr
            intro b hb
            simp only [decide_eq_true_eq]
            have := hfb b hb
            omega

theorem C3_copy_isomorphism_witness :
    NodupIds wdb.assets ∧
    (∀ a ∈ wdb.assets, a.id < 100 ∧ ∀ p ∈ a.parent_id, p < 100) ∧
    copy_asset wdb 1 none 100 =
      .ok ((copyOutcome wdb 1 none 100).1, (copyOutcome wdb 1 none 100).2) ∧
    (∃ asset cname urn rest,
      findAsset wdb 1 = some asset ∧
      resolveCopyName wdb.assets none
        (if none = asset.parent_id then asset.name ++ " (Copy)" else asset.name) =
          some cname ∧
      (copyOutcome wdb 1 none 100).2 = 100 ∧
      (copyOutcome wdb 1 none 100).1.types = wdb.types ∧
      (copyOutcome wdb 1 none 100).1.boms = wdb.boms ∧
      (copyOutcome wdb 1 none 100).1.assets =
        wdb.assets ++ copyRecord asset none 100 cname urn :: rest ∧
      (copyRecord asset none 100 cname urn).name = cname ∧
      (copyRecord asset none 100 cname urn).parent_id = none ∧
      (copyRecord asset none 100 cname urn).external_id = none ∧
      (∀ f, shapeOf (copyOutcome wdb 1 none 100).1.assets f (copyOutcome wdb 1 none 100).2 =
        shapeOf wdb.assets f 1) ∧
      (∀ f,
        (shapeOf (copyOutcome wdb 1 none 100).1.assets f (copyOutcome wdb 1 none 100).2).size =
          (shapeOf wdb.assets f 1).size) ∧
      (NamesUnique wdb.assets →
        (childrenOf (copyOutcome wdb 1 none 100).1.assets (copyOutcome wdb 1 none 100).2).map
            (fun c => c.name) =
          (childrenOf wdb.assets 1).map (fun c => c.name)) ∧
      (∀ e ∈ copyRecord asset none 100 cname urn :: rest,
        100 ≤ e.id ∧ (copyOutcome wdb 1 none 100).1.boms.filter
          (fun b => b.asset_id = e.id) = [])) :=
  ⟨by decide, by decide, by decide,
   C3_copy_isomorphism wdb 1 none 100 (copyOutcome wdb 1 none 100).1
     (copyOutcome wdb 1 none 100).2 (by decide)
     (acyclic_of_ranked wdb.assets (fun i => i) (by decide))
     (by decide) (by decide) (by decide)⟩

end AssetDNA
